import Mathlib

/-!
Shallow embedding of the record-reconciliation core of `pwa_converter.py`
(deduplication, per-subject grouping, closest-pair selection, pair averaging,
quality checks and the three output tables), together with proofs of the
specification claims about it.

Cells of the pandas DataFrame are modelled by `Value` (missing / number /
string), machine floats by exact rationals, and the frame itself by a list of
`Record`s addressed by their position, which is exactly how the source
addresses rows after `_prepare_dataframe` re-indexes them (`ignore_index`).
-/

namespace PWA

/-- One cell of the table: missing (`None`/`NaN`), a number, or a string. -/
inductive Value where
  | vNull : Value
  | vNum : ℚ → Value
  | vStr : String → Value
deriving DecidableEq

open Value

/-- Numeric value of a digit list, most significant first. -/
def digitsVal (cs : List Char) : ℚ :=
  cs.foldl (fun a c => a * 10 + ((c.toNat - 48 : ℕ) : ℚ)) 0

/-- The list is nonempty and holds only decimal digits. -/
def allDigits (cs : List Char) : Bool :=
  !cs.isEmpty && cs.all Char.isDigit

/-- Split a character list at the first dot, if any. -/
def splitDot : List Char → List Char × Option (List Char)
  | [] => ([], none)
  | c :: rest =>
    if c = '.' then ([], some rest)
    else
      let p := splitDot rest
      (c :: p.1, p.2)

/-- Parse an unsigned decimal numeral `\d+(\.\d+)?`. -/
def parseUnsigned (cs : List Char) : Option ℚ :=
  match splitDot cs with
  | (ip, none) => if allDigits ip then some (digitsVal ip) else none
  | (ip, some fp) =>
    if allDigits ip && allDigits fp then
      some (digitsVal ip + digitsVal fp / (10 : ℚ) ^ fp.length)
    else none

/-- Parse a numeric string of the shape `[+-]?\d+(\.\d+)?`, the shape accepted
by `_to_number` and (for the strings this program produces) by
`pd.to_numeric`. -/
def parseNumString (s : String) : Option ℚ :=
  match s.data with
  | '+' :: rest => parseUnsigned rest
  | '-' :: rest => (parseUnsigned rest).map (fun q => -q)
  | cs => parseUnsigned cs

/-- The coercion `pd.to_numeric(value, errors="coerce")` applied to one cell:
numbers pass through, numeric strings parse, everything else becomes missing. -/
def toNumeric : Value → Option ℚ
  | vNull => none
  | vNum q => some q
  | vStr s => parseNumString s

/-- Whether a cell is missing. -/
def Value.isNull : Value → Bool
  | vNull => true
  | _ => false

/-- Sort rank of a cell: pandas puts missing values last (`na_position` default)
and the program only ever sorts columns whose present values share one type, so
any fixed rank between numbers and strings is faithful. -/
def Value.rank : Value → ℕ
  | vNum _ => 0
  | vStr _ => 1
  | vNull => 2

/-- Numeric component of the sort key. -/
def Value.numPart : Value → ℚ
  | vNum a => a
  | _ => 0

/-- String component of the sort key, as its character list (Python compares
strings lexicographically by character). -/
def Value.strPart : Value → List Char
  | vStr s => s.data
  | _ => []

/-- Total sort key for one cell, missing values last. -/
def vKey (v : Value) : ℕ ×ₗ ℚ ×ₗ List Char :=
  toLex (v.rank, toLex (v.numPart, v.strPart))

/-- One row of the table, restricted to the columns the reconciliation logic
reads or writes (the remaining source columns are carried through the pipeline
untouched in exactly the way the modelled measurement columns are). -/
structure Record where
  sourceFile : Value
  patientId : Value
  scanDate : Value
  scanTime : Value
  recordingNo : Value
  analyed : Value
  perSys : Value
  perDia : Value
  perMean : Value
  aorSys : Value
  aorDia : Value
  ptiDia : Value
deriving DecidableEq

/-- A row whose cells are all missing. -/
def defaultRecord : Record :=
  ⟨vNull, vNull, vNull, vNull, vNull, vNull, vNull, vNull, vNull, vNull, vNull, vNull⟩

instance : Inhabited Record := ⟨defaultRecord⟩

/-- Cell access by source column name. -/
def Record.cell (r : Record) (c : String) : Value :=
  if c = "Source File" then r.sourceFile
  else if c = "Patient ID" then r.patientId
  else if c = "Scan Date" then r.scanDate
  else if c = "Scan Time" then r.scanTime
  else if c = "Recording #" then r.recordingNo
  else if c = "Analyed" then r.analyed
  else if c = "Peripheral Systolic Pressure (mmHg)" then r.perSys
  else if c = "Peripheral Diastolic Pressure (mmHg)" then r.perDia
  else if c = "Peripheral Mean Pressure (mmHg)" then r.perMean
  else if c = "Aortic Systolic Pressure (mmHg)" then r.aorSys
  else if c = "Aortic Diastolic Pressure (mmHg)" then r.aorDia
  else if c = "PTI Diastolic (mmHg.s/min)" then r.ptiDia
  else vNull

/-- Message planted in `Patient ID` for clinical-report rows. -/
def CLINICAL_REPORT_MESSAGE : String :=
  "Recognized as a Clinical Report, only upload the Detailed Reports"

/-- Message planted in `Patient ID` for unrecognized-report rows. -/
def UNRECOGNIZED_REPORT_MESSAGE : String :=
  "Not recognized as a PWA Detailed Report"

/-- The `Special Row` flag: the `Patient ID` cell holds one of the two
report-problem messages. -/
def Record.isSpecial (r : Record) : Bool :=
  r.patientId == vStr CLINICAL_REPORT_MESSAGE ||
    r.patientId == vStr UNRECOGNIZED_REPORT_MESSAGE

/-- Null out every column after `Source File` and `Patient ID`
(`df.loc[df["Special Row"], COLUMNS[2:]] = None`). -/
def blankMeasurements (r : Record) : Record :=
  { r with
    scanDate := vNull, scanTime := vNull, recordingNo := vNull, analyed := vNull,
    perSys := vNull, perDia := vNull, perMean := vNull,
    aorSys := vNull, aorDia := vNull, ptiDia := vNull }

/-- Blank the measurement columns of special rows, keep regular rows intact. -/
def applySpecialBlank (r : Record) : Record :=
  if r.isSpecial then blankMeasurements r else r

/-- Key of the multi-column sort
`sort_values(by=["Special Row", "Patient ID", "Scan Date", "Scan Time"])`.
The pandas multi-key sort is a stable lexicographic sort (`lexsort`), with
missing values last in each key. -/
def recKey (r : Record) :
    Bool ×ₗ (ℕ ×ₗ ℚ ×ₗ List Char) ×ₗ (ℕ ×ₗ ℚ ×ₗ List Char) ×ₗ
      (ℕ ×ₗ ℚ ×ₗ List Char) :=
  toLex (r.isSpecial, toLex (vKey r.patientId, toLex (vKey r.scanDate, vKey r.scanTime)))

/-- Comparison of two rows under the multi-column sort key. -/
def recLeP (a b : Record) : Prop := recKey a ≤ recKey b

instance : DecidableRel recLeP := fun a b =>
  inferInstanceAs (Decidable (recKey a ≤ recKey b))

instance : IsTotal Record recLeP := ⟨fun a b => le_total (recKey a) (recKey b)⟩

instance : IsTrans Record recLeP := ⟨fun _ _ _ => le_trans⟩

/-- The stable multi-key row sort (`sort_values` with several `by` columns is
pandas `lexsort`, a stable sort; any stable sorting algorithm computes the same
list, and the model uses stable insertion sort). -/
def recordSort (l : List Record) : List Record := l.insertionSort recLeP

/-- Key of `drop_duplicates(subset=["Patient ID", "Scan Time",
"PTI Diastolic (mmHg.s/min)"])`.  Plain equality of `Value`s: pandas
`drop_duplicates` treats missing values in the subset columns as equal to one
another. -/
def dedupKey (r : Record) : Value × Value × Value :=
  (r.patientId, r.scanTime, r.ptiDia)

/-- Drop every row whose dedup key was already seen (`keep="first"`). -/
def dropDupsAux : List Record → List (Value × Value × Value) → List Record
  | [], _ => []
  | r :: rest, seen =>
    if dedupKey r ∈ seen then dropDupsAux rest seen
    else r :: dropDupsAux rest (dedupKey r :: seen)

/-- The deduplication pass over the regular rows. -/
def dropDups (l : List Record) : List Record := dropDupsAux l []

/-- Number of earlier regular rows of the same subject
(`groupby("Patient ID").cumcount()` over the non-special rows). -/
def countPid (prev : List Record) (pid : Value) : ℕ :=
  (prev.filter (fun x => !x.isSpecial && x.patientId == pid)).length

/-- Recording number of one row given the rows before it: special rows and rows
whose `Patient ID` is missing (excluded from the groupby) stay null. -/
def setRecNo (prev : List Record) (r : Record) : Record :=
  if r.isSpecial || r.patientId == vNull then { r with recordingNo := vNull }
  else { r with recordingNo := vNum ((countPid prev r.patientId : ℚ) + 1) }

/-- Assign recording numbers left to right. -/
def assignRecNosAux : List Record → List Record → List Record
  | _, [] => []
  | prev, r :: rest => setRecNo prev r :: assignRecNosAux (prev ++ [r]) rest

/-- The `Recording #` assignment of `_prepare_dataframe`. -/
def assignRecNos (l : List Record) : List Record := assignRecNosAux [] l

/-- The non-special rows of a frame, in order. -/
def regularOf (l : List Record) : List Record :=
  l.filter (fun r => !r.isSpecial)

/-- The special rows of a frame, in order. -/
def specialOf (l : List Record) : List Record :=
  l.filter (fun r => r.isSpecial)

/-- First phase of `_prepare_dataframe`: flag and blank the special rows, then
sort the whole frame. -/
def prepPhase1 (records : List Record) : List Record :=
  recordSort (records.map applySpecialBlank)

/-- Middle phase of `_prepare_dataframe`: deduplicate the regular rows keeping
the first of each key and re-append the special rows (`pd.concat`). -/
def prepCombined (records : List Record) : List Record :=
  dropDups (regularOf (prepPhase1 records)) ++ specialOf (prepPhase1 records)

/-- The whole of `_prepare_dataframe`: flag and blank special rows, sort,
deduplicate the regular rows keeping the first of each key, re-append the
special rows, re-sort, and number the recordings. -/
def prep (records : List Record) : List Record :=
  assignRecNos (recordSort (prepCombined records))

/-! ### Pair selection (`_closest_pair_indices`, `_build_analyzed_data`) -/

/-- Field set of analysis mode 1 (peripheral SYS/DIA/MEAN matching). -/
def MODE_A_FIELDS : List String :=
  ["Peripheral Systolic Pressure (mmHg)",
   "Peripheral Diastolic Pressure (mmHg)",
   "Peripheral Mean Pressure (mmHg)"]

/-- Field set of analysis mode 2 (peripheral systolic only). -/
def MODE_B_FIELDS : List String := ["Peripheral Systolic Pressure (mmHg)"]

/-- The global `ANALYSIS_MODE` constant of the source. -/
def ANALYSIS_MODE : ℤ := 2

/-- Field-set lookup `analysis_fields_by_mode.get(mode, analysis_fields_by_mode[1])`:
any mode other than 1 and 2 falls back to the mode-1 field set. -/
def analysisFields (mode : ℤ) : List String :=
  if mode = 1 then MODE_A_FIELDS
  else if mode = 2 then MODE_B_FIELDS
  else MODE_A_FIELDS

/-- Numeric reading of a cell of an eligible row.  The caller
(`_build_analyzed_data`) has already coerced the analysis fields to numbers and
dropped every row missing one of them, so the default is never consulted on the
integrated path. -/
def Record.numAt (r : Record) (f : String) : ℚ := (toNumeric (r.cell f)).getD 0

/-- Squared Euclidean distance over the active field set.  The source takes the
square root before comparing; comparisons of square roots of nonnegative exact
values order exactly as the squared values do, so the squared form is used for
the exact model. -/
def dist2 (fields : List String) (a b : Record) : ℚ :=
  (fields.map (fun f => a.numAt f - b.numAt f)).foldl (fun s d => s + d * d) 0

/-- Absolute diastolic difference of a candidate pair, `none` when either side
is missing (the source uses `float("inf")` there). -/
def diaDiffKey (a b : Record) : Option ℚ :=
  match toNumeric (a.cell "Peripheral Diastolic Pressure (mmHg)"),
      toNumeric (b.cell "Peripheral Diastolic Pressure (mmHg)") with
  | some x, some y => some |x - y|
  | _, _ => none

/-- Strict comparison on `Option ℚ` where `none` stands for `+infinity`. -/
def optLtInf : Option ℚ → Option ℚ → Bool
  | some a, some b => decide (a < b)
  | some _, none => true
  | none, _ => false

/-- Strict comparison of a finite value against an `Option ℚ` infinity. -/
def ltInf (d : ℚ) : Option ℚ → Bool
  | none => true
  | some m => decide (d < m)

/-- All unordered pairs of an indexed group, enumerated exactly as the double
loop `for i, idx_i in enumerate(df.index[:-1]): for idx_j in df.index[i+1:]`. -/
def pairList : List (ℕ × Record) → List ((ℕ × Record) × (ℕ × Record))
  | [] => []
  | x :: rest => rest.map (fun y => (x, y)) ++ pairList rest

/-- Loop state of `_closest_pair_indices`: running minimum distance, running
minimum diastolic difference (both `none` = `float("inf")`), and the current
closest pair of row labels. -/
structure SelState where
  minDist : Option ℚ
  minDia : Option ℚ
  closest : Option (ℕ × ℕ)
deriving DecidableEq

/-- One iteration of the nested loop in `_closest_pair_indices`. -/
def selStep (systolicOnly : Bool) (fields : List String) (s : SelState)
    (p : (ℕ × Record) × (ℕ × Record)) : SelState :=
  let d := dist2 fields p.1.2 p.2.2
  let dia := if systolicOnly then diaDiffKey p.1.2 p.2.2 else none
  if ltInf d s.minDist then
    { minDist := some d, minDia := dia, closest := some (p.1.1, p.2.1) }
  else if s.minDist == some d && systolicOnly && optLtInf dia s.minDia then
    { minDist := s.minDist, minDia := dia, closest := some (p.1.1, p.2.1) }
  else s

/-- The automatic selector `_closest_pair_indices` over an indexed group of
eligible rows. -/
def closestPairIndices (g : List (ℕ × Record)) (fields : List String) :
    Option (ℕ × ℕ) :=
  if g.length < 2 then none
  else
    ((pairList g).foldl (selStep (fields == MODE_B_FIELDS) fields)
      ⟨none, none, none⟩).closest

/-- Strict order on diastolic tie-break keys, `none` greatest (missing
diastolic behaves as `float("inf")`). -/
def diaLt : Option ℚ → Option ℚ → Prop
  | some a, some b => a < b
  | some _, none => True
  | none, _ => False

/-- Reflexive order on diastolic tie-break keys, `none` greatest. -/
def diaLe : Option ℚ → Option ℚ → Prop
  | _, none => True
  | none, some _ => False
  | some a, some b => a ≤ b

/-- Selection key of a candidate pair: squared distance over the active
fields, then the diastolic difference. -/
def pairDistKey (fields : List String) (p : (ℕ × Record) × (ℕ × Record)) :
    ℚ × Option ℚ :=
  (dist2 fields p.1.2 p.2.2, diaDiffKey p.1.2 p.2.2)

/-- Strict lexicographic comparison of selection keys. -/
def pairKeyLt (k l : ℚ × Option ℚ) : Prop :=
  k.1 < l.1 ∨ (k.1 = l.1 ∧ diaLt k.2 l.2)

/-- Lexicographic comparison of selection keys. -/
def pairKeyLe (k l : ℚ × Option ℚ) : Prop :=
  k.1 < l.1 ∨ (k.1 = l.1 ∧ diaLe k.2 l.2)

instance diaLtDecidable : ∀ a b, Decidable (diaLt a b)
  | some a, some b => inferInstanceAs (Decidable (a < b))
  | some _, none => inferInstanceAs (Decidable True)
  | none, some _ => inferInstanceAs (Decidable False)
  | none, none => inferInstanceAs (Decidable False)

instance pairKeyLtDecidable (k l : ℚ × Option ℚ) : Decidable (pairKeyLt k l) :=
  inferInstanceAs (Decidable (k.1 < l.1 ∨ (k.1 = l.1 ∧ diaLt k.2 l.2)))

/-- Loop state holding a current best pair (mode-B shape). -/
def stateOf (fields : List String) :
    Option ((ℕ × Record) × (ℕ × Record)) → SelState
  | none => ⟨none, none, none⟩
  | some p =>
    ⟨some (dist2 fields p.1.2 p.2.2), diaDiffKey p.1.2 p.2.2,
      some (p.1.1, p.2.1)⟩

/-- Functional reading of the mode-B loop: keep the incumbent unless the new
pair's key is strictly smaller. -/
def bestOf (fields : List String) :
    Option ((ℕ × Record) × (ℕ × Record)) →
      List ((ℕ × Record) × (ℕ × Record)) →
        Option ((ℕ × Record) × (ℕ × Record))
  | b, [] => b
  | none, q :: rest => bestOf fields (some q) rest
  | some p, q :: rest =>
    bestOf fields
      (some (if pairKeyLt (pairDistKey fields q) (pairDistKey fields p)
        then q else p)) rest

/-! ### Averaging (`_average_pair_rows`) -/

/-- The fields excluded from averaging (`AVERAGED_EXCLUDED_FIELDS`). -/
def AVERAGED_EXCLUDED : List String :=
  ["Source File", "Scanned ID", "Scan Date", "Scan Time", "Analyed",
   "Recording #", "Source Path"]

/-- The modelled column list (the columns of the frame the claims speak about,
in source column order). -/
def COLUMNSM : List String :=
  ["Source File", "Patient ID", "Scan Date", "Scan Time", "Recording #",
   "Analyed",
   "Peripheral Systolic Pressure (mmHg)",
   "Peripheral Diastolic Pressure (mmHg)",
   "Peripheral Mean Pressure (mmHg)",
   "Aortic Systolic Pressure (mmHg)",
   "Aortic Diastolic Pressure (mmHg)",
   "PTI Diastolic (mmHg.s/min)"]

/-- Per-column body of `_average_pair_rows`: coerce the two cells to numbers;
if any is numeric take the mean of the numeric ones (`Series.mean` skips
missing values), otherwise the first non-null raw cell, otherwise null. -/
def avgCell (v1 v2 : Value) : Value :=
  let nums := [toNumeric v1, toNumeric v2].filterMap id
  if nums.isEmpty then
    match [v1, v2].filter (fun v => !v.isNull) with
    | [] => vNull
    | v :: _ => v
  else vNum (nums.sum / (nums.length : ℚ))

/-- Whole of `_average_pair_rows`: one output entry per non-excluded column,
`Patient ID` copied from the first row of the pair. -/
def averagePairRows (cols : List String) (c1 c2 : String → Value)
    (excluded : List String) : List (String × Value) :=
  cols.filterMap (fun col =>
    if excluded.contains col then none
    else if col = "Patient ID" then some (col, c1 col)
    else some (col, avgCell (c1 col) (c2 col)))

/-- Overwrite (in place) the value stored under a key of an assoc-list row,
appending when absent — Python dict assignment. -/
def setEntry (row : List (String × Value)) (k : String) (v : Value) :
    List (String × Value) :=
  if row.any (fun e => e.1 == k) then
    row.map (fun e => if e.1 == k then (k, v) else e)
  else row ++ [(k, v)]

/-! ### Grouping and the per-subject loop of `_build_analyzed_data` -/

/-- Comparison of groupby keys (`groupby` sorts its keys ascending). -/
def vLeP (a b : Value) : Prop := vKey a ≤ vKey b

instance : DecidableRel vLeP := fun a b =>
  inferInstanceAs (Decidable (vKey a ≤ vKey b))

/-- The groupby keys: distinct non-missing `Patient ID` values in ascending
order (`groupby` sorts its keys and drops missing ones). -/
def subjects (rs : List Record) : List Value :=
  (((rs.map Record.patientId).filter (fun v => !v.isNull)).dedup).insertionSort vLeP

/-- The indexed rows of one subject, in frame order. -/
def groupFor (rs : List Record) (pid : Value) : List (ℕ × Record) :=
  rs.enum.filter (fun p => p.2.patientId == pid)

/-- Eligibility for the active mode: every analysis field coerces to a number
(`group.dropna(subset=analysis_fields)` after `pd.to_numeric` coercion). -/
def eligible (fields : List String) (r : Record) : Bool :=
  fields.all (fun f => (toNumeric (r.cell f)).isSome)

/-- The eligible indexed rows of one subject (`valid_group`). -/
def validGroup (rs : List Record) (fields : List String) (pid : Value) :
    List (ℕ × Record) :=
  (groupFor rs pid).filter (fun p => eligible fields p.2)

/-- Pair choice for one subject: a manual pair is taken verbatim when both its
indices lie in the subject's eligible set, otherwise the automatic selector
runs (`if not pair or not all(index in valid_group.index for index in pair)`). -/
def selectPair (rs : List Record) (fields : List String)
    (manual : Value → Option (ℕ × ℕ)) (pid : Value) : Option (ℕ × ℕ) :=
  let vg := validGroup rs fields pid
  match manual pid with
  | some mp =>
    if (vg.map Prod.fst).contains mp.1 && (vg.map Prod.fst).contains mp.2 then
      some mp
    else closestPairIndices vg fields
  | none => closestPairIndices vg fields

/-- Row access by label; `df.loc` on the integrated path only ever receives
labels of existing rows. -/
def getRecord (rs : List Record) (i : ℕ) : Record := (rs[i]?).getD defaultRecord

/-- Output of `_build_analyzed_data`: the averaged rows, the kept labels, and
the per-subject chosen pairs. -/
structure Analyzed where
  rows : List (List (String × Value))
  kept : List ℕ
  used : List (Value × (ℕ × ℕ))

/-- Accumulating step of the per-subject loop in `_build_analyzed_data`. -/
def buildStep (rs : List Record) (fields : List String)
    (manual : Value → Option (ℕ × ℕ)) (acc : Analyzed) (pid : Value) : Analyzed :=
  match selectPair rs fields manual pid with
  | none => acc
  | some p =>
    let rA := getRecord rs p.1
    let rB := getRecord rs p.2
    let row := setEntry
      (averagePairRows COLUMNSM rA.cell rB.cell AVERAGED_EXCLUDED)
      "Patient ID" pid
    { rows := acc.rows ++ [row], kept := acc.kept ++ [p.1, p.2],
      used := acc.used ++ [(pid, p)] }

/-- The whole of `_build_analyzed_data` over an already prepared frame. -/
def buildAnalyzedData (rs : List Record) (mode : ℤ)
    (manual : Value → Option (ℕ × ℕ)) : Analyzed :=
  (subjects rs).foldl (buildStep rs (analysisFields mode) manual) ⟨[], [], []⟩

/-! ### Quality checks (`_quality_check_summary`) -/

/-- Message for a single-record subject. -/
def MSG_SINGLE : String := "Only one file was uploaded for this participant."

/-- Message for a clinical-report upload. -/
def MSG_CLINICAL : String :=
  "A clinical report was uploaded. Only detailed reports are used for analysis. Confirm all detailed reports are uploaded."

/-- Message for mismatched scan dates in the chosen pair. -/
def MSG_DATES : String :=
  "Participant has different scan dates between the files choosen for analysis."

/-- Message for a cross-checked pressure field disagreeing by more than 5. -/
def diffMsg (field : String) : String :=
  "The two selected files differ by more than 5 mmhg for " ++ field ++ "."

/-- The four cross-checked pressure fields (`diff_fields`). -/
def DIFF_FIELDS : List String :=
  ["Peripheral Systolic Pressure (mmHg)",
   "Peripheral Diastolic Pressure (mmHg)",
   "Aortic Systolic Pressure (mmHg)",
   "Aortic Diastolic Pressure (mmHg)"]

/-- Split a character list at every occurrence of a separator character
(Python `str.split(sep)` semantics, empty pieces preserved). -/
def splitCharAux (sep : Char) : List Char → List Char → List (List Char)
  | [], acc => [acc.reverse]
  | c :: rest, acc =>
    if c = sep then acc.reverse :: splitCharAux sep rest []
    else splitCharAux sep rest (c :: acc)

/-- Split a character list at a separator character. -/
def splitChar (sep : Char) (cs : List Char) : List (List Char) :=
  splitCharAux sep cs []

/-- Stem of a file name: the name with its last extension removed, as
`pathlib.Path(...).stem` computes it for the bare file names this program
stores in `Source File`. -/
def pathStem (s : String) : List Char :=
  let name := (splitChar '/' s.data).getLastD s.data
  let parts := splitChar '.' name
  if parts.length ≤ 1 then name
  else if name.headD ' ' = '.' ∧ parts.length = 2 then name
  else List.intercalate ['.'] parts.dropLast

/-- The `_derive_patient_id` helper: stem of the path, cut at the first
underscore. -/
def derivePatientId (s : String) : String :=
  String.mk ((splitChar '_' (pathStem s)).headD (pathStem s))

/-- Subject ids derived from the `Source File` of clinical special rows
(`clinical_ids`).  `Source File` cells are file-name strings wherever
`process_pdf` writes them; missing ones are dropped (`dropna`). -/
def clinicalIds (rs : List Record) : List String :=
  (rs.filter (fun r => r.patientId == vStr CLINICAL_REPORT_MESSAGE)).filterMap
    (fun r =>
      match r.sourceFile with
      | vStr s => some (derivePatientId s)
      | _ => none)

/-- Natural-number value of a digit list. -/
def digitsValN (cs : List Char) : ℕ :=
  cs.foldl (fun a c => a * 10 + (c.toNat - 48)) 0

/-- Parse a nonempty all-digit character list. -/
def parseNatDigits (cs : List Char) : Option ℕ :=
  if allDigits cs then some (digitsValN cs) else none

/-- Calendar-date reading of a `Scan Date` cell, `dd/mm/yyyy` with
`dayfirst=True` as the source's PDF extraction produces it; anything else is
treated as unparseable. -/
def parseDMY (v : Value) : Option (ℕ × ℕ × ℕ) :=
  match v with
  | vStr s =>
    match splitChar '/' s.data with
    | [d, m, y] =>
      match parseNatDigits d, parseNatDigits m, parseNatDigits y with
      | some dd, some mm, some yy =>
        if 1 ≤ dd ∧ dd ≤ 31 ∧ 1 ≤ mm ∧ mm ≤ 12 then some (dd, mm, yy) else none
      | _, _, _ => none
    | _ => none
  | _ => none

/-- Failure messages of one subject, in the order `_quality_check_summary`
appends them: single-record check, clinical-contamination check, then (when a
pair was chosen) the scan-date check and one disagreement check per
cross-checked pressure field. -/
def qcFailures (rs : List Record) (used : List (Value × (ℕ × ℕ))) (pid : Value) :
    List String :=
  let regular := rs.filter (fun r => !r.isSpecial)
  let groupSize := (regular.filter (fun r => r.patientId == pid)).length
  let f1 := if groupSize = 1 then [MSG_SINGLE] else []
  let f2 :=
    if (match pid with
        | vStr s => (clinicalIds rs).contains s
        | _ => false) then [MSG_CLINICAL] else []
  let fPair :=
    match used.lookup pid with
    | none => []
    | some p =>
      let a := getRecord rs p.1
      let b := getRecord rs p.2
      let fd :=
        match parseDMY a.scanDate, parseDMY b.scanDate with
        | some da, some db => if da ≠ db then [MSG_DATES] else []
        | _, _ => []
      let fds := DIFF_FIELDS.filterMap (fun f =>
        match toNumeric (a.cell f), toNumeric (b.cell f) with
        | some x, some y => if |x - y| > 5 then some (diffMsg f) else none
        | _, _ => none)
      fd ++ fds
  f1 ++ f2 ++ fPair

/-- The diagnostic string: `"Pass"` or the `" // "`-joined failures. -/
def qcString (fails : List String) : String :=
  if fails.isEmpty then "Pass" else String.intercalate " // " fails

/-- The groupby keys of the quality loop: distinct non-missing subject ids of
the regular rows. -/
def regularPids (rs : List Record) : List Value :=
  (((rs.filter (fun r => !r.isSpecial)).map Record.patientId).filter
    (fun v => !v.isNull)).dedup

/-- Subjects with exactly one regular row
(`value_counts().loc[lambda s: s == 1]`). -/
def singleFilePids (rs : List Record) : List Value :=
  (regularPids rs).filter (fun pid =>
    ((rs.filter (fun r => !r.isSpecial)).filter
      (fun r => r.patientId == pid)).length = 1)

/-! ### Output assembly (`save_to_excel`, reconciliation part) -/

/-- Columns of the averaged view: the frame's columns minus the excluded
fields and the `Special Row` helper (restricted to the modelled column set). -/
def AVG_COLS : List String :=
  COLUMNSM.filter (fun c => !AVERAGED_EXCLUDED.contains c)

/-- Quality-check cell of one averaged row:
`averaged_df["Patient ID"].map(quality_checks).fillna("Pass")`. -/
def qcValue (rs : List Record) (used : List (Value × (ℕ × ℕ))) (pid : Value) :
    String :=
  if (regularPids rs).contains pid then qcString (qcFailures rs used pid)
  else "Pass"

/-- Insert the `Quality Check` entry right after the `Patient ID` entry of a
row (the column reordering of `save_to_excel`). -/
def addQCEntry (row : List (String × Value)) (v : Value) :
    List (String × Value) :=
  match row with
  | [] => [("Quality Check", v)]
  | e :: rest =>
    if e.1 == "Patient ID" then e :: ("Quality Check", v) :: rest
    else e :: addQCEntry rest v

/-- The three logical output tables of `save_to_excel` (the date re-formatting
and spreadsheet styling of the export boundary are presentation only and out of
the reconciliation core). -/
structure SaveOut where
  allRows : List Record
  keptRows : List Record
  avgRows : List (List (String × Value))

/-- The averaging rule exactly as the specification words it, per field: mean
of the parseable numeric values present among the two cells, else the first
non-null raw cell in pair order, else null.  This is the spec-side definition
the implementation is compared against for the refinement claim about the
Averager. -/
def avgCellSpec (v1 v2 : Value) : Value :=
  match toNumeric v1, toNumeric v2 with
  | some a, some b => vNum ((a + b) / 2)
  | some a, none => vNum a
  | none, some b => vNum b
  | none, none =>
    if v1.isNull then (if v2.isNull then vNull else v2) else v1

/-- The reconciliation pipeline of `save_to_excel`: prepare the frame, build
the analyzed data, run the quality checks, append one placeholder row per
single-record subject, attach the quality column, and mark the kept rows. -/
def saveCore (records : List Record) (mode : ℤ)
    (manual : Value → Option (ℕ × ℕ)) : SaveOut :=
  let df := prep records
  let az := buildAnalyzedData df mode manual
  let placeholders := (singleFilePids df).map (fun pid =>
    AVG_COLS.map (fun c => (c, if c = "Patient ID" then pid else vStr "-")))
  let avgRows0 := az.rows ++ placeholders
  let avgRows := avgRows0.map (fun row =>
    addQCEntry row
      (vStr (qcValue df az.used (((row.lookup "Patient ID").getD vNull)))))
  let allRows := df.enum.map (fun p =>
    { p.2 with analyed := vStr (if az.kept.contains p.1 then "Yes" else "No") })
  let keptRows := allRows.filter (fun r => r.analyed == vStr "Yes")
  ⟨allRows, keptRows, avgRows⟩

/-! ### Concrete fixtures used by witnesses and counterexamples -/

/-- A regular measurement row with the given cells. -/
def mkRow (pid : String) (date time : Value) (sys dia mean pti : Value) : Record :=
  { defaultRecord with
    patientId := vStr pid, scanDate := date, scanTime := time,
    perSys := sys, perDia := dia, perMean := mean, ptiDia := pti }

/-- First of two regular rows sharing a fully null dedup key. -/
def c1recA : Record :=
  mkRow "S1" (vStr "01/02/2023") vNull (vNum 120) (vNum 80) (vNum 93) vNull

/-- Second of two regular rows sharing a fully null dedup key. -/
def c1recB : Record :=
  mkRow "S1" (vStr "02/02/2023") vNull (vNum 130) (vNum 85) (vNum 99) vNull

/-- Eligible row of the two-record subject of the single-record counterexample. -/
def c2recA : Record :=
  mkRow "S1" (vStr "01/02/2023") (vStr "08:00") (vNum 120) (vNum 80) (vNum 93) (vNum 40)

/-- Ineligible (missing systolic) row of the same subject. -/
def c2recB : Record :=
  mkRow "S1" (vStr "01/02/2023") (vStr "09:00") vNull (vNum 81) (vNum 94) (vNum 41)

/-- Single regular row of a one-record subject (witness data). -/
def c2recC : Record :=
  mkRow "S2" (vStr "01/02/2023") (vStr "11:00") (vNum 110) (vNum 70) (vNum 83) (vNum 43)

/-- Tie-break witness group: systolic 100, 102, 104 and diastolic 80, 85, 81,
so the pairs at positions 0-1 and 1-2 tie on distance and the diastolic
difference decides. -/
def c3group : List (ℕ × Record) :=
  [(0, mkRow "A" vNull vNull (vNum 100) (vNum 80) vNull vNull),
   (1, mkRow "A" vNull vNull (vNum 102) (vNum 85) vNull vNull),
   (2, mkRow "A" vNull vNull (vNum 104) (vNum 81) vNull vNull)]

/-- Three eligible rows of one subject (systolic 118, 120, 200). -/
def e3rows : List Record :=
  [mkRow "S1" (vStr "01/02/2023") (vStr "08:00") (vNum 118) (vNum 80) (vNum 93) (vNum 40),
   mkRow "S1" (vStr "01/02/2023") (vStr "09:00") (vNum 120) (vNum 81) (vNum 94) (vNum 41),
   mkRow "S1" (vStr "01/02/2023") (vStr "10:00") (vNum 200) (vNum 99) (vNum 120) (vNum 42)]

/-- A manual-override map choosing the repeated pair (2, 2) for subject S1. -/
def c9manual : Value → Option (ℕ × ℕ) :=
  fun v => if v == vStr "S1" then some (2, 2) else none

/-- A manual-override map with an out-of-range pair for subject S1. -/
def c4manualBad : Value → Option (ℕ × ℕ) :=
  fun v => if v == vStr "S1" then some (0, 7) else none

/-- A single unrecognized-report row (special row fixture). -/
def c6recs : List Record :=
  [{ defaultRecord with
      patientId := vStr UNRECOGNIZED_REPORT_MESSAGE,
      sourceFile := vStr "x.pdf" }]

/-- Chosen pair whose rows differ by 6 on peripheral systolic and by 5 on
peripheral diastolic (threshold witness). -/
def c7rows : List Record :=
  [mkRow "S1" (vStr "01/02/2023") (vStr "08:00") (vNum 120) (vNum 80) (vNum 93) (vNum 40),
   mkRow "S1" (vStr "01/02/2023") (vStr "09:00") (vNum 126) (vNum 85) (vNum 94) (vNum 41)]

/-! ### Small structural lemmas about records and the pipeline -/

theorem recordingNo_set_self {r : Record} (h : r.recordingNo = vNull) :
    { r with recordingNo := vNull } = r := by
  cases r
  simp_all

theorem blankMeasurements_patientId (r : Record) :
    (blankMeasurements r).patientId = r.patientId := rfl

theorem blankMeasurements_isSpecial (r : Record) :
    (blankMeasurements r).isSpecial = r.isSpecial := rfl

theorem blankMeasurements_idem (r : Record) :
    blankMeasurements (blankMeasurements r) = blankMeasurements r := rfl

theorem applySpecialBlank_idem (r : Record) :
    applySpecialBlank (applySpecialBlank r) = applySpecialBlank r := by
  by_cases h : r.isSpecial
  · have h2 : (blankMeasurements r).isSpecial = true := by
      rw [blankMeasurements_isSpecial]; exact h
    simp only [applySpecialBlank, h, h2, if_true]
    exact blankMeasurements_idem r
  · simp only [applySpecialBlank, h, Bool.false_eq_true, if_false]

theorem setRecNo_shape (prev : List Record) (r : Record) :
    ∃ v, setRecNo prev r = { r with recordingNo := v } := by
  unfold setRecNo
  split
  · exact ⟨vNull, rfl⟩
  · exact ⟨_, rfl⟩

theorem setRecNo_patientId (prev : List Record) (r : Record) :
    (setRecNo prev r).patientId = r.patientId := by
  obtain ⟨v, hv⟩ := setRecNo_shape prev r
  rw [hv]

theorem setRecNo_isSpecial (prev : List Record) (r : Record) :
    (setRecNo prev r).isSpecial = r.isSpecial := by
  obtain ⟨v, hv⟩ := setRecNo_shape prev r
  rw [hv]
  rfl

theorem setRecNo_dedupKey (prev : List Record) (r : Record) :
    dedupKey (setRecNo prev r) = dedupKey r := by
  obtain ⟨v, hv⟩ := setRecNo_shape prev r
  rw [hv]
  rfl

theorem setRecNo_recKey (prev : List Record) (r : Record) :
    recKey (setRecNo prev r) = recKey r := by
  obtain ⟨v, hv⟩ := setRecNo_shape prev r
  rw [hv]
  rfl

/-! ### Claim C10: unknown analysis modes fall back to mode A -/

/-- C10: for every analysis-mode value other than 1 and 2, the pair selector
uses the mode-A field set, and the whole of `_build_analyzed_data` behaves
exactly as in mode 1; no error is raised (the function is total). -/
theorem c10_mode_fallback (rs : List Record) (manual : Value → Option (ℕ × ℕ))
    (mode : ℤ) (h1 : mode ≠ 1) (h2 : mode ≠ 2) :
    analysisFields mode = MODE_A_FIELDS ∧
      buildAnalyzedData rs mode manual = buildAnalyzedData rs 1 manual := by
  have hf : analysisFields mode = MODE_A_FIELDS := by
    unfold analysisFields
    simp [h1, h2]
  refine ⟨hf, ?_⟩
  unfold buildAnalyzedData
  rw [hf]
  have : analysisFields 1 = MODE_A_FIELDS := by unfold analysisFields; simp
  rw [this]

/-- C10 witness: mode 3 at a concrete record list. -/
theorem c10_witness :
    (3 : ℤ) ≠ 1 ∧ (3 : ℤ) ≠ 2 ∧
      (analysisFields 3 = MODE_A_FIELDS ∧
        buildAnalyzedData e3rows 3 c9manual = buildAnalyzedData e3rows 1 c9manual) :=
  ⟨by decide, by decide, c10_mode_fallback e3rows c9manual 3 (by decide) (by decide)⟩

/-! ### Claim C5: averaging semantics -/

theorem avgCell_eq_spec (v1 v2 : Value) : avgCell v1 v2 = avgCellSpec v1 v2 := by
  unfold avgCell avgCellSpec
  rcases h1 : toNumeric v1 with _ | a <;> rcases h2 : toNumeric v2 with _ | b
  · simp only [List.filterMap, h1, h2]
    cases v1 <;> cases v2 <;> simp_all [Value.isNull, toNumeric]
  · norm_num [List.filterMap, h1, h2]
  · norm_num [List.filterMap, h1, h2]
  · norm_num [List.filterMap, h1, h2]

theorem averagePairRows_lookup (cols : List String) (c1 c2 : String → Value)
    (excl : List String) (col : String) (hmem : col ∈ cols)
    (hexcl : excl.contains col = false) (hpid : col ≠ "Patient ID") :
    (averagePairRows cols c1 c2 excl).lookup col =
      some (avgCellSpec (c1 col) (c2 col)) := by
  induction cols with
  | nil => cases hmem
  | cons c cs ih =>
    unfold averagePairRows
    rw [List.filterMap_cons]
    by_cases hc : c = col
    · subst hc
      simp only [hexcl, Bool.false_eq_true, if_false, hpid, if_neg hpid]
      simp [List.lookup, avgCell_eq_spec]
    · have h : col ∈ cs := by
        rcases List.mem_cons.mp hmem with h | h
        · exact absurd h.symm hc
        · exact h
      have tail := ih h
      unfold averagePairRows at tail
      rcases hstep : (if excl.contains c = true then none
          else if c = "Patient ID" then some (c, c1 c)
          else some (c, avgCell (c1 c) (c2 c))) with _ | e
      · simpa only [hstep] using tail
      · have he : e.1 = c := by
          by_cases hx : excl.contains c = true
          · rw [if_pos hx] at hstep; cases hstep
          · rw [if_neg hx] at hstep
            by_cases hy : c = "Patient ID"
            · rw [if_pos hy] at hstep; cases hstep; rfl
            · rw [if_neg hy] at hstep; cases hstep; rfl
        obtain ⟨k, v⟩ := e
        have hk : k = c := he
        subst hk
        have hne : (col == k) = false :=
          beq_eq_false_iff_ne.mpr (fun hh => hc hh.symm)
        simp only [hstep, List.lookup, hne]
        exact tail

/-- C5: for every column list, every pair of rows, and every non-excluded
column other than the subject identifier, the Averager's output holds exactly
the value the specification describes: the mean of the parseable numeric
values present among the two cells (a single present numeric value is returned
as is, missing values are never treated as zero), else the first non-null raw
cell in the pair's declared order, else null. -/
theorem c5_average_semantics (cols : List String) (c1 c2 : String → Value)
    (excl : List String) (col : String) (hmem : col ∈ cols)
    (hexcl : excl.contains col = false) (hpid : col ≠ "Patient ID") :
    (averagePairRows cols c1 c2 excl).lookup col =
      some (avgCellSpec (c1 col) (c2 col)) :=
  averagePairRows_lookup cols c1 c2 excl col hmem hexcl hpid

/-- C5 witness: a pair with one missing value and a pair of equal values. -/
theorem c5_witness :
    ("Peripheral Systolic Pressure (mmHg)" ∈ COLUMNSM ∧
      AVERAGED_EXCLUDED.contains "Peripheral Systolic Pressure (mmHg)" = false) ∧
    (averagePairRows COLUMNSM (fun _ => vNull) (fun c => if c = "Peripheral Systolic Pressure (mmHg)" then vNum 120 else vNull)
        AVERAGED_EXCLUDED).lookup "Peripheral Systolic Pressure (mmHg)" =
      some (avgCellSpec vNull (vNum 120)) :=
  ⟨⟨by decide, by decide⟩,
    c5_average_semantics COLUMNSM _ _ AVERAGED_EXCLUDED _ (by decide) (by decide)
      (by decide)⟩

/-! ### Claim C1: deduplication of null-keyed records -/

theorem dropDupsAux_spec (l : List Record) (seen : List (Value × Value × Value)) :
    ((dropDupsAux l seen).map dedupKey).Nodup ∧
      ∀ k ∈ (dropDupsAux l seen).map dedupKey, k ∉ seen := by
  induction l generalizing seen with
  | nil => simp [dropDupsAux]
  | cons r rest ih =>
    by_cases h : dedupKey r ∈ seen
    · simpa [dropDupsAux, h] using ih seen
    · have hrec := ih (dedupKey r :: seen)
      simp only [dropDupsAux, h, if_false, List.map_cons]
      constructor
      · refine List.nodup_cons.mpr ⟨?_, hrec.1⟩
        intro hmem
        exact (hrec.2 _ hmem) (List.mem_cons_self _ _)
      · intro k hk
        rcases List.mem_cons.mp hk with rfl | hk2
        · exact h
        · intro hkseen
          exact (hrec.2 k hk2) (List.mem_cons_of_mem _ hkseen)

theorem dropDupsAux_sublist (l : List Record) (seen : List (Value × Value × Value)) :
    (dropDupsAux l seen).Sublist l := by
  induction l generalizing seen with
  | nil => simp [dropDupsAux]
  | cons r rest ih =>
    by_cases h : dedupKey r ∈ seen
    · simp only [dropDupsAux, h, if_true]
      exact (ih seen).cons r
    · simp only [dropDupsAux, h, if_false]
      exact (ih (dedupKey r :: seen)).cons₂ r

theorem assignAux_filter_dedupKeys (prev : List Record) (xs : List Record) :
    ((assignRecNosAux prev xs).filter (fun r => !r.isSpecial)).map dedupKey =
      ((xs.filter (fun r => !r.isSpecial)).map dedupKey) := by
  induction xs generalizing prev with
  | nil => rfl
  | cons r rest ih =>
    simp only [assignRecNosAux, List.filter_cons, setRecNo_isSpecial]
    by_cases h : r.isSpecial
    · simp only [h, Bool.not_true, Bool.false_eq_true, if_false]
      exact ih (prev ++ [r])
    · have h2 : (!r.isSpecial) = true := by simp [h]
      simp only [h2, if_true, List.map_cons, setRecNo_dedupKey]
      rw [ih (prev ++ [r])]

/-- C1 counterexample: two regular records of one subject whose `Scan Time`
and `PTI Diastolic` are both null.  The claim says neither is removed, but the
Deduplicator (pandas `drop_duplicates`, which treats missing key values as
equal) removes one: only one row survives preparation. -/
theorem c1_counterexample : (prep [c1recA, c1recB]).length = 1 := by decide

theorem assign_filter_dedupKeys (xs : List Record) :
    ((assignRecNos xs).filter (fun r => !r.isSpecial)).map dedupKey =
      ((xs.filter (fun r => !r.isSpecial)).map dedupKey) :=
  assignAux_filter_dedupKeys [] xs

theorem combined_filter_regular (records : List Record) :
    (prepCombined records).filter (fun r => !r.isSpecial) =
      dropDups (regularOf (prepPhase1 records)) := by
  unfold prepCombined
  rw [List.filter_append]
  have hspec_nil :
      (specialOf (prepPhase1 records)).filter (fun r => !r.isSpecial) = [] := by
    rw [List.filter_eq_nil_iff]
    intro a ha
    unfold specialOf at ha
    have := (List.mem_filter.mp ha).2
    simp_all
  have hded_self :
      (dropDups (regularOf (prepPhase1 records))).filter
        (fun r => !r.isSpecial) = dropDups (regularOf (prepPhase1 records)) := by
    rw [List.filter_eq_self]
    intro a ha
    have hsub : (dropDups (regularOf (prepPhase1 records))).Sublist
        (regularOf (prepPhase1 records)) := dropDupsAux_sublist _ _
    have hmem : a ∈ regularOf (prepPhase1 records) := hsub.mem ha
    unfold regularOf at hmem
    exact (List.mem_filter.mp hmem).2
  rw [hspec_nil, hded_self, List.append_nil]

theorem prep_regular_keys_nodup (rs : List Record) :
    (((prep rs).filter (fun r => !r.isSpecial)).map dedupKey).Nodup := by
  unfold prep
  rw [assign_filter_dedupKeys]
  have hperm : List.Perm (recordSort (prepCombined rs)) (prepCombined rs) :=
    List.perm_insertionSort _ _
  have hpermmap :
      List.Perm
        (((recordSort (prepCombined rs)).filter (fun r => !r.isSpecial)).map
          dedupKey)
        (((prepCombined rs).filter (fun r => !r.isSpecial)).map dedupKey) :=
    (hperm.filter _).map _
  rw [List.Perm.nodup_iff hpermmap, combined_filter_regular]
  exact (dropDupsAux_spec _ []).1

/-- C1 amended: null key fields match one another exactly like ordinary
values, so after deduplication no two regular records share a
`(Patient ID, Scan Time, PTI Diastolic)` key — in particular, of two regular
records of one subject with null `Scan Time` and null `PTI Diastolic`, only
the first in sort order survives; the dedup keys of the surviving regular
records are pairwise distinct. -/
theorem c1_amended_dedup_keys_nodup (rs : List Record) :
    (((prep rs).filter (fun r => !r.isSpecial)).map dedupKey).Nodup :=
  prep_regular_keys_nodup rs

/-! ### Claim C8: idempotence of `_prepare_dataframe` -/

theorem mem_prepCombined_subset {records : List Record} {r : Record}
    (h : r ∈ prepCombined records) : r ∈ records.map applySpecialBlank := by
  unfold prepCombined at h
  rcases List.mem_append.mp h with h1 | h1
  · have hsub : (dropDups (regularOf (prepPhase1 records))).Sublist
        (regularOf (prepPhase1 records)) := dropDupsAux_sublist _ _
    have h2 : r ∈ regularOf (prepPhase1 records) := hsub.mem h1
    unfold regularOf at h2
    have h3 : r ∈ prepPhase1 records := (List.mem_filter.mp h2).1
    unfold prepPhase1 recordSort at h3
    exact (List.mem_insertionSort recLeP).mp h3
  · unfold specialOf at h1
    have h3 : r ∈ prepPhase1 records := (List.mem_filter.mp h1).1
    unfold prepPhase1 recordSort at h3
    exact (List.mem_insertionSort recLeP).mp h3

theorem setRecNo_blank_fixed (prev : List Record) (a : Record)
    (h : applySpecialBlank a = a) :
    applySpecialBlank (setRecNo prev a) = setRecNo prev a := by
  by_cases hs : a.isSpecial
  · have hb : blankMeasurements a = a := by
      unfold applySpecialBlank at h
      rwa [if_pos hs] at h
    have hrn : a.recordingNo = vNull := by
      conv_lhs => rw [← hb]
      rfl
    have hset : setRecNo prev a = a := by
      unfold setRecNo
      rw [if_pos (by simp [hs])]
      exact recordingNo_set_self hrn
    rw [hset]
    exact h
  · have hs2 : (setRecNo prev a).isSpecial = false := by
      rw [setRecNo_isSpecial]
      simpa using hs
    unfold applySpecialBlank
    rw [hs2]
    simp

theorem assignAux_blank_fixed (xs : List Record) :
    ∀ prev, (∀ x ∈ xs, applySpecialBlank x = x) →
      ∀ b ∈ assignRecNosAux prev xs, applySpecialBlank b = b := by
  induction xs with
  | nil => intro prev _ b hb; cases hb
  | cons x rest ih =>
    intro prev h b hb
    rcases List.mem_cons.mp hb with rfl | hb2
    · exact setRecNo_blank_fixed prev x (h x (List.mem_cons_self _ _))
    · exact ih (prev ++ [x]) (fun y hy => h y (List.mem_cons_of_mem _ hy)) b hb2

theorem prep_blank_fixed (rs : List Record) :
    ∀ r ∈ prep rs, applySpecialBlank r = r := by
  intro r hr
  unfold prep at hr
  refine assignAux_blank_fixed _ [] ?_ r hr
  intro x hx
  unfold recordSort at hx
  have hx2 : x ∈ prepCombined rs := (List.mem_insertionSort recLeP).mp hx
  obtain ⟨y, _, rfl⟩ := List.mem_map.mp (mem_prepCombined_subset hx2)
  exact applySpecialBlank_idem y

theorem assignAux_mem_shape (xs : List Record) :
    ∀ prev, ∀ b ∈ assignRecNosAux prev xs,
      ∃ y ∈ xs, ∃ v, b = { y with recordingNo := v } := by
  induction xs with
  | nil => intro prev b hb; cases hb
  | cons x rest ih =>
    intro prev b hb
    rcases List.mem_cons.mp hb with rfl | hb2
    · obtain ⟨v, hv⟩ := setRecNo_shape prev x
      exact ⟨x, List.mem_cons_self _ _, v, hv⟩
    · obtain ⟨y, hy, v, hv⟩ := ih (prev ++ [x]) b hb2
      exact ⟨y, List.mem_cons_of_mem _ hy, v, hv⟩

theorem recKey_set_recordingNo (y : Record) (v : Value) :
    recKey { y with recordingNo := v } = recKey y := rfl

theorem assignAux_pairwise (xs : List Record) :
    ∀ prev, List.Pairwise recLeP xs →
      List.Pairwise recLeP (assignRecNosAux prev xs) := by
  induction xs with
  | nil => intro prev _; exact List.Pairwise.nil
  | cons x rest ih =>
    intro prev h
    rcases List.pairwise_cons.mp h with ⟨hx, hrest⟩
    refine List.pairwise_cons.mpr ⟨?_, ih (prev ++ [x]) hrest⟩
    intro b hb
    obtain ⟨y, hy, v, rfl⟩ := assignAux_mem_shape rest (prev ++ [x]) b hb
    have h1 : recLeP x y := hx y hy
    unfold recLeP at h1 ⊢
    rw [recKey_set_recordingNo]
    obtain ⟨w, hw⟩ := setRecNo_shape prev x
    rw [hw, recKey_set_recordingNo]
    exact h1

theorem sorted_prep (rs : List Record) : List.Pairwise recLeP (prep rs) := by
  unfold prep
  refine assignAux_pairwise _ [] ?_
  exact List.sorted_insertionSort recLeP (prepCombined rs)

theorem special_le_special {a b : Record} (hab : recLeP a b)
    (ha : a.isSpecial = true) : b.isSpecial = true := by
  unfold recLeP recKey at hab
  rw [Prod.Lex.le_iff] at hab
  rcases hab with h | h
  · rw [ha] at h
    simp [Bool.lt_iff] at h
  · rw [ha] at h
    exact h.1.symm

theorem sorted_regular_special_split (l : List Record)
    (h : List.Pairwise recLeP l) :
    l = l.filter (fun r => !r.isSpecial) ++ l.filter (fun r => r.isSpecial) := by
  induction l with
  | nil => rfl
  | cons x xs ih =>
    rcases List.pairwise_cons.mp h with ⟨hx, hxs⟩
    by_cases hs : x.isSpecial
    · have hall : ∀ y ∈ xs, y.isSpecial = true := fun y hy =>
        special_le_special (hx y hy) hs
      have h1 : (x :: xs).filter (fun r => !r.isSpecial) = [] := by
        rw [List.filter_eq_nil_iff]
        intro a ha
        rcases List.mem_cons.mp ha with rfl | ha2
        · simp [hs]
        · simp [hall a ha2]
      have h2 : (x :: xs).filter (fun r => r.isSpecial) = x :: xs := by
        rw [List.filter_eq_self]
        intro a ha
        rcases List.mem_cons.mp ha with rfl | ha2
        · exact hs
        · exact hall a ha2
      rw [h1, h2]
      rfl
    · have hbool : (!x.isSpecial) = true := by simp [hs]
      rw [List.filter_cons, List.filter_cons, if_pos hbool, if_neg hs]
      rw [List.cons_append]
      exact congrArg (x :: ·) (ih hxs)

theorem dropDupsAux_eq_self (l : List Record) :
    ∀ seen, ((l.map dedupKey).Nodup) → (∀ k ∈ l.map dedupKey, k ∉ seen) →
      dropDupsAux l seen = l := by
  induction l with
  | nil => intro seen _ _; rfl
  | cons r rest ih =>
    intro seen h1 h2
    have hr : dedupKey r ∉ seen := h2 _ (by simp)
    unfold dropDupsAux
    rw [if_neg hr]
    refine congrArg (r :: ·) (ih (dedupKey r :: seen) ?_ ?_)
    · exact (List.nodup_cons.mp (by simpa using h1)).2
    · intro k hk hkmem
      rcases List.mem_cons.mp hkmem with rfl | hkseen
      · exact (List.nodup_cons.mp (by simpa using h1)).1 hk
      · exact h2 k (List.mem_cons_of_mem _ hk) hkseen

theorem countPid_congr {p q : List Record}
    (h : List.Forall₂
      (fun a b => a.isSpecial = b.isSpecial ∧ a.patientId = b.patientId) p q)
    (pid : Value) : countPid p pid = countPid q pid := by
  induction h with
  | nil => rfl
  | cons hab htail ih =>
    unfold countPid at ih ⊢
    rw [List.filter_cons, List.filter_cons, hab.1, hab.2]
    split
    · simpa using ih
    · exact ih

theorem setRecNo_setRecNo {p q : List Record}
    (h : List.Forall₂
      (fun a b => a.isSpecial = b.isSpecial ∧ a.patientId = b.patientId) p q)
    (x : Record) : setRecNo q (setRecNo p x) = setRecNo p x := by
  by_cases hc : (x.isSpecial || x.patientId == vNull) = true
  · have h1 : setRecNo p x = { x with recordingNo := vNull } := by
      unfold setRecNo
      rw [if_pos hc]
    rw [h1]
    unfold setRecNo
    rw [if_pos (by simpa using hc)]
  · have h1 : setRecNo p x =
        { x with recordingNo := vNum ((countPid p x.patientId : ℚ) + 1) } := by
      unfold setRecNo
      rw [if_neg hc]
    rw [h1]
    unfold setRecNo
    rw [if_neg (by simpa using hc)]
    rw [countPid_congr h]

theorem assignAux_assignAux (xs : List Record) :
    ∀ p q, List.Forall₂
        (fun a b => a.isSpecial = b.isSpecial ∧ a.patientId = b.patientId) p q →
      assignRecNosAux q (assignRecNosAux p xs) = assignRecNosAux p xs := by
  induction xs with
  | nil => intro p q _; rfl
  | cons x rest ih =>
    intro p q h
    show setRecNo q (setRecNo p x) ::
        assignRecNosAux (q ++ [setRecNo p x]) (assignRecNosAux (p ++ [x]) rest) =
      setRecNo p x :: assignRecNosAux (p ++ [x]) rest
    rw [setRecNo_setRecNo h x]
    refine congrArg _ (ih (p ++ [x]) (q ++ [setRecNo p x]) ?_)
    exact List.rel_append h
      (List.Forall₂.cons
        ⟨(setRecNo_isSpecial p x).symm, (setRecNo_patientId p x).symm⟩
        List.Forall₂.nil)

/-- C8: deduplication is idempotent — applying `_prepare_dataframe` to its own
output (sort by special flag, subject, date and time; drop duplicate
`(Patient ID, Scan Time, PTI Diastolic)` keys among the regular rows keeping
the first; re-sort; re-number recordings) changes nothing. -/
theorem c8_prep_idempotent (rs : List Record) : prep (prep rs) = prep rs := by
  have hfix : ∀ r ∈ prep rs, applySpecialBlank r = r := prep_blank_fixed rs
  have hmap : (prep rs).map applySpecialBlank = prep rs := by
    rw [List.map_congr_left hfix, List.map_id']
  have hsorted : List.Pairwise recLeP (prep rs) := sorted_prep rs
  have hsort_eq : recordSort (prep rs) = prep rs :=
    List.Sorted.insertionSort_eq hsorted
  have hphase1 : prepPhase1 (prep rs) = prep rs := by
    unfold prepPhase1
    rw [hmap]
    exact hsort_eq
  have hdd : dropDups (regularOf (prep rs)) = regularOf (prep rs) := by
    refine dropDupsAux_eq_self _ [] ?_ ?_
    · exact prep_regular_keys_nodup rs
    · intro k _ hk
      cases hk
  have hcomb : prepCombined (prep rs) = prep rs := by
    unfold prepCombined
    rw [hphase1, hdd]
    unfold regularOf specialOf
    exact (sorted_regular_special_split _ hsorted).symm
  have hstep : prep (prep rs) =
      assignRecNos (recordSort (prepCombined (prep rs))) := rfl
  rw [hstep, hcomb, hsort_eq]
  have hrw : prep rs = assignRecNos (recordSort (prepCombined rs)) := rfl
  rw [hrw]
  exact assignAux_assignAux _ [] [] List.Forall₂.nil

/-! ### Claim C3: mode-B tie-break of `_closest_pair_indices` -/

theorem diaLe_refl (a : Option ℚ) : diaLe a a := by
  cases a <;> simp [diaLe]

theorem diaLe_of_lt {a b : Option ℚ} (h : diaLt a b) : diaLe a b := by
  cases a <;> cases b <;> simp_all [diaLt, diaLe]
  exact le_of_lt h

theorem diaLt_trans {a b c : Option ℚ} (h1 : diaLt a b) (h2 : diaLt b c) :
    diaLt a c := by
  cases a <;> cases b <;> cases c <;> simp_all [diaLt]
  exact lt_trans h1 h2

theorem diaLe_of_not_lt {a b : Option ℚ} (h : ¬ diaLt a b) : diaLe b a := by
  cases a <;> cases b <;> simp_all [diaLt, diaLe]

theorem diaLt_of_lt_of_le {a b c : Option ℚ} (h1 : diaLt a b) (h2 : diaLe b c) :
    diaLt a c := by
  cases a <;> cases b <;> cases c <;> simp_all [diaLt, diaLe]
  exact lt_of_lt_of_le h1 h2

theorem pairKeyLe_refl (k : ℚ × Option ℚ) : pairKeyLe k k :=
  Or.inr ⟨rfl, diaLe_refl _⟩

theorem pairKeyLe_of_lt {k l : ℚ × Option ℚ} (h : pairKeyLt k l) :
    pairKeyLe k l := by
  rcases h with h | ⟨h1, h2⟩
  · exact Or.inl h
  · exact Or.inr ⟨h1, diaLe_of_lt h2⟩

theorem pairKeyLt_trans {k l m : ℚ × Option ℚ} (h1 : pairKeyLt k l)
    (h2 : pairKeyLt l m) : pairKeyLt k m := by
  rcases h1 with h1 | ⟨h1a, h1b⟩ <;> rcases h2 with h2 | ⟨h2a, h2b⟩
  · exact Or.inl (lt_trans h1 h2)
  · exact Or.inl (h2a ▸ h1)
  · exact Or.inl (h1a ▸ h2)
  · exact Or.inr ⟨h1a.trans h2a, diaLt_trans h1b h2b⟩

theorem pairKeyLe_of_not_lt {k l : ℚ × Option ℚ} (h : ¬ pairKeyLt k l) :
    pairKeyLe l k := by
  rcases lt_trichotomy k.1 l.1 with h1 | h1 | h1
  · exact absurd (Or.inl h1) h
  · refine Or.inr ⟨h1.symm, diaLe_of_not_lt ?_⟩
    intro hd
    exact h (Or.inr ⟨h1, hd⟩)
  · exact Or.inl h1

theorem pairKeyLt_of_lt_of_le {k l m : ℚ × Option ℚ} (h1 : pairKeyLt k l)
    (h2 : pairKeyLe l m) : pairKeyLt k m := by
  rcases h1 with h1 | ⟨h1a, h1b⟩ <;> rcases h2 with h2 | ⟨h2a, h2b⟩
  · exact Or.inl (lt_trans h1 h2)
  · exact Or.inl (h2a ▸ h1)
  · exact Or.inl (h1a ▸ h2)
  · exact Or.inr ⟨h1a.trans h2a, diaLt_of_lt_of_le h1b h2b⟩

theorem optLtInf_iff (a b : Option ℚ) : optLtInf a b = true ↔ diaLt a b := by
  cases a <;> cases b <;> simp [optLtInf, diaLt]

theorem selStep_none (fields : List String) (q : (ℕ × Record) × (ℕ × Record)) :
    selStep true fields (stateOf fields none) q = stateOf fields (some q) := rfl

theorem selStep_some (fields : List String)
    (p q : (ℕ × Record) × (ℕ × Record)) :
    selStep true fields (stateOf fields (some p)) q =
      stateOf fields
        (some (if pairKeyLt (pairDistKey fields q) (pairDistKey fields p)
          then q else p)) := by
  by_cases hc : pairKeyLt (pairDistKey fields q) (pairDistKey fields p)
  · rw [if_pos hc]
    rcases hc with h1 | ⟨h1, h2⟩
    · have h1b : dist2 fields q.1.2 q.2.2 < dist2 fields p.1.2 p.2.2 := h1
      simp [selStep, stateOf, ltInf, h1b]
    · have h1b : dist2 fields q.1.2 q.2.2 = dist2 fields p.1.2 p.2.2 := h1
      have h2b : diaLt (diaDiffKey q.1.2 q.2.2) (diaDiffKey p.1.2 p.2.2) := h2
      have hno : ¬ dist2 fields q.1.2 q.2.2 < dist2 fields p.1.2 p.2.2 := by
        rw [h1b]
        exact lt_irrefl _
      simp [selStep, stateOf, ltInf, hno, h1b, (optLtInf_iff _ _).mpr h2b]
  · rw [if_neg hc]
    have h1 : ¬ dist2 fields q.1.2 q.2.2 < dist2 fields p.1.2 p.2.2 :=
      fun h => hc (Or.inl h)
    by_cases h2 : dist2 fields p.1.2 p.2.2 = dist2 fields q.1.2 q.2.2
    · have h3 : ¬ diaLt (diaDiffKey q.1.2 q.2.2) (diaDiffKey p.1.2 p.2.2) :=
        fun hd => hc (Or.inr ⟨h2.symm, hd⟩)
      have h4 : optLtInf (diaDiffKey q.1.2 q.2.2)
          (diaDiffKey p.1.2 p.2.2) = false := by
        rw [← Bool.not_eq_true]
        intro hx
        exact h3 ((optLtInf_iff _ _).mp hx)
      simp [selStep, stateOf, ltInf, h1, h2, h4]
    · simp [selStep, stateOf, ltInf, h1, h2]

theorem foldl_selStep (fields : List String)
    (l : List ((ℕ × Record) × (ℕ × Record))) :
    ∀ b, l.foldl (selStep true fields) (stateOf fields b) =
      stateOf fields (bestOf fields b l) := by
  induction l with
  | nil => intro b; cases b <;> rfl
  | cons q rest ih =>
    intro b
    cases b with
    | none =>
      rw [List.foldl_cons, selStep_none]
      exact ih (some q)
    | some p =>
      rw [List.foldl_cons, selStep_some]
      exact ih (some _)

theorem bestOf_cons_spec (fields : List String)
    (rest : List ((ℕ × Record) × (ℕ × Record))) :
    ∀ p, ∃ r, bestOf fields (some p) rest = some r ∧
      ((r = p ∧ ∀ q ∈ rest,
          pairKeyLe (pairDistKey fields r) (pairDistKey fields q)) ∨
        (∃ n : ℕ, rest[n]? = some r ∧
          pairKeyLt (pairDistKey fields r) (pairDistKey fields p) ∧
          (∀ q ∈ rest,
            pairKeyLe (pairDistKey fields r) (pairDistKey fields q)) ∧
          (∀ m : ℕ, m < n → ∀ q, rest[m]? = some q →
            pairKeyLt (pairDistKey fields r) (pairDistKey fields q)))) := by
  induction rest with
  | nil =>
    intro p
    exact ⟨p, rfl, Or.inl ⟨rfl, by simp⟩⟩
  | cons q rest ih =>
    intro p
    by_cases hqp : pairKeyLt (pairDistKey fields q) (pairDistKey fields p)
    · have hstep : bestOf fields (some p) (q :: rest) =
          bestOf fields (some q) rest := by
        have hd : bestOf fields (some p) (q :: rest) =
            bestOf fields
              (some (if pairKeyLt (pairDistKey fields q) (pairDistKey fields p)
                then q else p)) rest := rfl
        rw [hd, if_pos hqp]
      obtain ⟨r, hr, hP⟩ := ih q
      refine ⟨r, hstep ▸ hr, Or.inr ?_⟩
      rcases hP with ⟨rfl, hle⟩ | ⟨n, hn, hlt, hle, hfirst⟩
      · refine ⟨0, by simp, hqp, ?_, ?_⟩
        · intro s hs
          rcases List.mem_cons.mp hs with rfl | hs2
          · exact pairKeyLe_refl _
          · exact hle s hs2
        · intro m hm
          exact absurd hm (Nat.not_lt_zero m)
      · refine ⟨n + 1, by simpa using hn, pairKeyLt_trans hlt hqp, ?_, ?_⟩
        · intro s hs
          rcases List.mem_cons.mp hs with rfl | hs2
          · exact pairKeyLe_of_lt hlt
          · exact hle s hs2
        · intro m hm s hsm
          cases m with
          | zero =>
            simp only [List.getElem?_cons_zero, Option.some.injEq] at hsm
            exact hsm ▸ hlt
          | succ m2 =>
            simp only [List.getElem?_cons_succ] at hsm
            exact hfirst m2 (Nat.succ_lt_succ_iff.mp hm) s hsm
    · have hstep : bestOf fields (some p) (q :: rest) =
          bestOf fields (some p) rest := by
        have hd : bestOf fields (some p) (q :: rest) =
            bestOf fields
              (some (if pairKeyLt (pairDistKey fields q) (pairDistKey fields p)
                then q else p)) rest := rfl
        rw [hd, if_neg hqp]
      obtain ⟨r, hr, hP⟩ := ih p
      refine ⟨r, hstep ▸ hr, ?_⟩
      rcases hP with ⟨rfl, hle⟩ | ⟨n, hn, hlt, hle, hfirst⟩
      · refine Or.inl ⟨rfl, ?_⟩
        intro s hs
        rcases List.mem_cons.mp hs with rfl | hs2
        · exact pairKeyLe_of_not_lt hqp
        · exact hle s hs2
      · refine Or.inr ⟨n + 1, by simpa using hn, hlt, ?_, ?_⟩
        · intro s hs
          rcases List.mem_cons.mp hs with rfl | hs2
          · exact pairKeyLe_of_lt
              (pairKeyLt_of_lt_of_le hlt (pairKeyLe_of_not_lt hqp))
          · exact hle s hs2
        · intro m hm s hsm
          cases m with
          | zero =>
            simp only [List.getElem?_cons_zero, Option.some.injEq] at hsm
            exact hsm ▸ pairKeyLt_of_lt_of_le hlt (pairKeyLe_of_not_lt hqp)
          | succ m2 =>
            simp only [List.getElem?_cons_succ] at hsm
            exact hfirst m2 (Nat.succ_lt_succ_iff.mp hm) s hsm

theorem pairList_mem_parts :
    ∀ (l : List (ℕ × Record)) (pq : (ℕ × Record) × (ℕ × Record)),
      pq ∈ pairList l → pq.1 ∈ l ∧ pq.2 ∈ l := by
  intro l
  induction l with
  | nil => intro pq h; cases h
  | cons x rest ih =>
    intro pq h
    unfold pairList at h
    rcases List.mem_append.mp h with h1 | h1
    · obtain ⟨y, hy, rfl⟩ := List.mem_map.mp h1
      exact ⟨List.mem_cons_self _ _, List.mem_cons_of_mem _ hy⟩
    · obtain ⟨ha, hb⟩ := ih pq h1
      exact ⟨List.mem_cons_of_mem _ ha, List.mem_cons_of_mem _ hb⟩

theorem pairList_index_pairwise (g : List (ℕ × Record))
    (hinc : List.Pairwise (fun p q : ℕ × Record => p.1 < q.1) g) :
    List.Pairwise
      (fun p q : (ℕ × Record) × (ℕ × Record) =>
        p.1.1 < q.1.1 ∨ (p.1.1 = q.1.1 ∧ p.2.1 < q.2.1))
      (pairList g) := by
  induction g with
  | nil => exact List.Pairwise.nil
  | cons x rest ih =>
    rcases List.pairwise_cons.mp hinc with ⟨hx, hrest⟩
    unfold pairList
    rw [List.pairwise_append]
    refine ⟨?_, ih hrest, ?_⟩
    · exact List.Pairwise.map _ (fun a b hab => Or.inr ⟨rfl, hab⟩) hrest
    · intro u hu v hv
      obtain ⟨y, _, rfl⟩ := List.mem_map.mp hu
      exact Or.inl (hx v.1 (pairList_mem_parts rest v hv).1)

/-- C3: in mode B, among all candidate pairs the selector returns the pair
whose key (squared distance over the systolic field, then absolute diastolic
difference with a missing diastolic treated as infinity — so a tied pair with
a missing diastolic is never preferred to a tied pair with both present) is
lexicographically minimal, and of several key-tied pairs the one earliest in
the enumeration; the enumeration itself lists pairs in ascending
(first index, second index) order. -/
theorem c3_modeB_tiebreak (g : List (ℕ × Record)) (h2 : 2 ≤ g.length)
    (hinc : List.Pairwise (fun p q : ℕ × Record => p.1 < q.1) g) :
    (List.Pairwise
      (fun p q : (ℕ × Record) × (ℕ × Record) =>
        p.1.1 < q.1.1 ∨ (p.1.1 = q.1.1 ∧ p.2.1 < q.2.1)) (pairList g)) ∧
    ∃ (n : ℕ) (p : (ℕ × Record) × (ℕ × Record)), (pairList g)[n]? = some p ∧
      closestPairIndices g MODE_B_FIELDS = some (p.1.1, p.2.1) ∧
      (∀ q ∈ pairList g,
        pairKeyLe (pairDistKey MODE_B_FIELDS p) (pairDistKey MODE_B_FIELDS q)) ∧
      (∀ m : ℕ, m < n → ∀ q, (pairList g)[m]? = some q →
        pairKeyLt (pairDistKey MODE_B_FIELDS p)
          (pairDistKey MODE_B_FIELDS q)) := by
  refine ⟨pairList_index_pairwise g hinc, ?_⟩
  match g, h2 with
  | a :: b :: t, _ =>
    have hshape : pairList (a :: b :: t) =
        (a, b) :: ((t.map (fun y => (a, y))) ++ pairList (b :: t)) := rfl
    have hclosed : closestPairIndices (a :: b :: t) MODE_B_FIELDS =
        ((pairList (a :: b :: t)).foldl (selStep true MODE_B_FIELDS)
          (stateOf MODE_B_FIELDS none)).closest := by
      unfold closestPairIndices
      rw [if_neg (by simp)]
      have : (MODE_B_FIELDS == MODE_B_FIELDS) = true := by simp
      rw [this]
      rfl
    set L := (t.map (fun y => (a, y))) ++ pairList (b :: t) with hL
    obtain ⟨r, hr, hP⟩ := bestOf_cons_spec MODE_B_FIELDS L (a, b)
    have hfold : closestPairIndices (a :: b :: t) MODE_B_FIELDS =
        some (r.1.1, r.2.1) := by
      rw [hclosed, hshape, foldl_selStep]
      have : bestOf MODE_B_FIELDS none ((a, b) :: L) =
          bestOf MODE_B_FIELDS (some (a, b)) L := rfl
      rw [this, hr]
      rfl
    rcases hP with ⟨rfl, hle⟩ | ⟨n, hn, hlt, hle, hfirst⟩
    · refine ⟨0, (a, b), by rw [hshape]; simp, hfold, ?_, ?_⟩
      · intro q hq
        rw [hshape] at hq
        rcases List.mem_cons.mp hq with rfl | hq2
        · exact pairKeyLe_refl _
        · exact hle q hq2
      · intro m hm
        exact absurd hm (Nat.not_lt_zero m)
    · refine ⟨n + 1, r, by rw [hshape]; simpa using hn, hfold, ?_, ?_⟩
      · intro q hq
        rw [hshape] at hq
        rcases List.mem_cons.mp hq with rfl | hq2
        · exact pairKeyLe_of_lt hlt
        · exact hle q hq2
      · intro m hm q hqm
        rw [hshape] at hqm
        cases m with
        | zero =>
          simp only [List.getElem?_cons_zero, Option.some.injEq] at hqm
          exact hqm ▸ hlt
        | succ m2 =>
          simp only [List.getElem?_cons_succ] at hqm
          exact hfirst m2 (Nat.succ_lt_succ_iff.mp hm) q hqm

/-- C3 witness: the concrete tied group (systolic 100, 102, 104; diastolic
80, 85, 81), where the selector indeed picks the tied pair with the smaller
diastolic difference, namely indices (1, 2). -/
theorem c3_witness :
    (2 ≤ c3group.length ∧
      List.Pairwise (fun p q : ℕ × Record => p.1 < q.1) c3group) ∧
    ((List.Pairwise
      (fun p q : (ℕ × Record) × (ℕ × Record) =>
        p.1.1 < q.1.1 ∨ (p.1.1 = q.1.1 ∧ p.2.1 < q.2.1))
      (pairList c3group)) ∧
    ∃ (n : ℕ) (p : (ℕ × Record) × (ℕ × Record)),
      (pairList c3group)[n]? = some p ∧
      closestPairIndices c3group MODE_B_FIELDS = some (p.1.1, p.2.1) ∧
      (∀ q ∈ pairList c3group,
        pairKeyLe (pairDistKey MODE_B_FIELDS p) (pairDistKey MODE_B_FIELDS q)) ∧
      (∀ m : ℕ, m < n → ∀ q, (pairList c3group)[m]? = some q →
        pairKeyLt (pairDistKey MODE_B_FIELDS p)
          (pairDistKey MODE_B_FIELDS q))) :=
  ⟨⟨by decide, by decide⟩,
    c3_modeB_tiebreak c3group (by decide) (by decide)⟩

/-! ### Structure of the per-subject loop (`_build_analyzed_data`) -/

theorem lookup_append_some {α β : Type} [BEq α] {l1 l2 : List (α × β)} {a : α}
    {b : β} (h : l1.lookup a = some b) : (l1 ++ l2).lookup a = some b := by
  induction l1 with
  | nil => cases h
  | cons e rest ih =>
    obtain ⟨k, v⟩ := e
    rw [List.cons_append]
    by_cases hk : (a == k) = true
    · simp only [List.lookup, hk] at h ⊢
      exact h
    · have hk2 : (a == k) = false := by simpa using hk
      simp only [List.lookup, hk2] at h ⊢
      exact ih h

theorem lookup_append_none {α β : Type} [BEq α] {l1 l2 : List (α × β)} {a : α}
    (h : l1.lookup a = none) : (l1 ++ l2).lookup a = l2.lookup a := by
  induction l1 with
  | nil => rfl
  | cons e rest ih =>
    obtain ⟨k, v⟩ := e
    rw [List.cons_append]
    by_cases hk : (a == k) = true
    · simp only [List.lookup, hk] at h
      cases h
    · have hk2 : (a == k) = false := by simpa using hk
      simp only [List.lookup, hk2] at h ⊢
      exact ih h

theorem subjects_nodup (rs : List Record) : (subjects rs).Nodup := by
  unfold subjects
  exact (List.perm_insertionSort vLeP _).nodup_iff.mpr (List.nodup_dedup _)

theorem buildStep_used (rs : List Record) (fields : List String)
    (manual : Value → Option (ℕ × ℕ)) (acc : Analyzed) (s : Value) :
    (buildStep rs fields manual acc s).used = acc.used ∨
      ∃ p, selectPair rs fields manual s = some p ∧
        (buildStep rs fields manual acc s).used = acc.used ++ [(s, p)] := by
  unfold buildStep
  rcases hsel : selectPair rs fields manual s with _ | p
  · exact Or.inl rfl
  · exact Or.inr ⟨p, rfl, rfl⟩

theorem buildFold_used_entry (rs : List Record) (fields : List String)
    (manual : Value → Option (ℕ × ℕ)) (subs : List Value) :
    ∀ acc q p,
      (q, p) ∈ (subs.foldl (buildStep rs fields manual) acc).used →
      (q, p) ∈ acc.used ∨
        (q ∈ subs ∧ selectPair rs fields manual q = some p) := by
  induction subs with
  | nil => intro acc q p h; exact Or.inl h
  | cons s rest ih =>
    intro acc q p h
    rw [List.foldl_cons] at h
    rcases ih _ q p h with h2 | ⟨hq, hp⟩
    · rcases buildStep_used rs fields manual acc s with he | ⟨p2, hp2, he⟩
      · rw [he] at h2
        exact Or.inl h2
      · rw [he] at h2
        rcases List.mem_append.mp h2 with h3 | h3
        · exact Or.inl h3
        · simp only [List.mem_singleton, Prod.mk.injEq] at h3
          exact Or.inr ⟨h3.1 ▸ List.mem_cons_self _ _, h3.1 ▸ h3.2 ▸ hp2⟩
    · exact Or.inr ⟨List.mem_cons_of_mem _ hq, hp⟩

theorem buildFold_used_lookup_notmem (rs : List Record) (fields : List String)
    (manual : Value → Option (ℕ × ℕ)) (subs : List Value) :
    ∀ acc pid, pid ∉ subs →
      ((subs.foldl (buildStep rs fields manual) acc).used.lookup pid =
        acc.used.lookup pid) := by
  induction subs with
  | nil => intro acc pid _; rfl
  | cons s rest ih =>
    intro acc pid hpid
    rw [List.foldl_cons]
    have hs : pid ∉ rest := fun h => hpid (List.mem_cons_of_mem _ h)
    rw [ih _ pid hs]
    rcases buildStep_used rs fields manual acc s with he | ⟨p2, _, he⟩
    · rw [he]
    · rw [he]
      rcases hacc : acc.used.lookup pid with _ | b
      · rw [lookup_append_none hacc]
        have hne : (pid == s) = false :=
          beq_eq_false_iff_ne.mpr (fun h => hpid (h ▸ List.mem_cons_self _ _))
        simp [List.lookup, hne]
      · exact lookup_append_some hacc

theorem buildFold_used_lookup (rs : List Record) (fields : List String)
    (manual : Value → Option (ℕ × ℕ)) (subs : List Value) :
    ∀ acc pid, pid ∈ subs → subs.Nodup → acc.used.lookup pid = none →
      ((subs.foldl (buildStep rs fields manual) acc).used.lookup pid =
        selectPair rs fields manual pid) := by
  induction subs with
  | nil => intro acc pid h; cases h
  | cons s rest ih =>
    intro acc pid hmem hnodup hacc
    rw [List.foldl_cons]
    rcases List.mem_cons.mp hmem with rfl | hmem2
    · have hrest : pid ∉ rest := (List.nodup_cons.mp hnodup).1
      rw [buildFold_used_lookup_notmem rs fields manual rest _ pid hrest]
      unfold buildStep
      rcases hsel : selectPair rs fields manual pid with _ | p
      · simp only [hsel]
        exact hacc
      · simp only [hsel]
        rw [lookup_append_none hacc]
        simp [List.lookup]
    · have hne : pid ≠ s := by
        rintro rfl
        exact (List.nodup_cons.mp hnodup).1 hmem2
      refine ih _ pid hmem2 (List.nodup_cons.mp hnodup).2 ?_
      rcases buildStep_used rs fields manual acc s with he | ⟨p2, _, he⟩
      · rw [he]
        exact hacc
      · rw [he, lookup_append_none hacc]
        simp [List.lookup, beq_eq_false_iff_ne.mpr hne]

theorem build_used_lookup (rs : List Record) (mode : ℤ)
    (manual : Value → Option (ℕ × ℕ)) (pid : Value)
    (hs : pid ∈ subjects rs) :
    (buildAnalyzedData rs mode manual).used.lookup pid =
      selectPair rs (analysisFields mode) manual pid :=
  buildFold_used_lookup rs (analysisFields mode) manual (subjects rs)
    ⟨[], [], []⟩ pid hs (subjects_nodup rs) rfl

theorem build_used_lookup_none (rs : List Record) (mode : ℤ)
    (manual : Value → Option (ℕ × ℕ)) (pid : Value)
    (hs : pid ∉ subjects rs) :
    (buildAnalyzedData rs mode manual).used.lookup pid = none :=
  buildFold_used_lookup_notmem rs (analysisFields mode) manual (subjects rs)
    ⟨[], [], []⟩ pid hs

/-- C4: a manual-override pair for a subject is used verbatim exactly when
both its indices lie in that subject's eligible record set; otherwise the
selector falls back to the automatic choice for that subject (the function is
total, so no error can be raised), and the pair chosen for any subject depends
only on that subject's own manual entry — changing another subject's entry
never changes it. -/
theorem c4_manual_override (rs : List Record) (mode : ℤ)
    (manual : Value → Option (ℕ × ℕ)) (pid : Value) (mp : ℕ × ℕ)
    (hm : manual pid = some mp) (hs : pid ∈ subjects rs) :
    ((((validGroup rs (analysisFields mode) pid).map Prod.fst).contains mp.1 ∧
      ((validGroup rs (analysisFields mode) pid).map Prod.fst).contains mp.2) →
        (buildAnalyzedData rs mode manual).used.lookup pid = some mp) ∧
    ((¬ (((validGroup rs (analysisFields mode) pid).map Prod.fst).contains mp.1 ∧
      ((validGroup rs (analysisFields mode) pid).map Prod.fst).contains mp.2)) →
        (buildAnalyzedData rs mode manual).used.lookup pid =
          closestPairIndices (validGroup rs (analysisFields mode) pid)
            (analysisFields mode)) ∧
    (∀ (manual2 : Value → Option (ℕ × ℕ)) (q : Value), manual2 q = manual q →
      (buildAnalyzedData rs mode manual2).used.lookup q =
        (buildAnalyzedData rs mode manual).used.lookup q) := by
  refine ⟨?_, ?_, ?_⟩
  · intro hv
    rw [build_used_lookup rs mode manual pid hs]
    unfold selectPair
    rw [hm]
    dsimp only
    rw [if_pos (by rw [hv.1, hv.2]; rfl)]
  · intro hv
    rw [build_used_lookup rs mode manual pid hs]
    unfold selectPair
    rw [hm]
    dsimp only
    rw [if_neg ?_]
    intro hb
    rcases Bool.and_eq_true _ _ |>.mp hb with ⟨h1, h2⟩
    exact hv ⟨h1, h2⟩
  · intro manual2 q hq
    by_cases hqs : q ∈ subjects rs
    · rw [build_used_lookup rs mode manual2 q hqs,
        build_used_lookup rs mode manual q hqs]
      unfold selectPair
      rw [hq]
    · rw [build_used_lookup_none rs mode manual2 q hqs,
        build_used_lookup_none rs mode manual q hqs]

/-! ### Claim C6: the kept flag is the union of the chosen pairs -/

theorem buildFold_kept_used (rs : List Record) (fields : List String)
    (manual : Value → Option (ℕ × ℕ)) (subs : List Value) :
    ∀ acc,
      (∀ i : ℕ, i ∈ acc.kept ↔
        ∃ pid p, (pid, p) ∈ acc.used ∧ (i = p.1 ∨ i = p.2)) →
      ∀ i : ℕ, i ∈ (subs.foldl (buildStep rs fields manual) acc).kept ↔
        ∃ pid p,
          (pid, p) ∈ (subs.foldl (buildStep rs fields manual) acc).used ∧
            (i = p.1 ∨ i = p.2) := by
  induction subs with
  | nil => intro acc h i; exact h i
  | cons s rest ih =>
    intro acc h i
    rw [List.foldl_cons]
    refine ih _ ?_ i
    intro j
    unfold buildStep
    rcases hsel : selectPair rs fields manual s with _ | p
    · exact h j
    · constructor
      · intro hj
        rcases List.mem_append.mp hj with hj2 | hj2
        · obtain ⟨pid, p2, hp2, hor⟩ := (h j).mp hj2
          exact ⟨pid, p2, List.mem_append_left _ hp2, hor⟩
        · refine ⟨s, p, List.mem_append_right _ (by simp), ?_⟩
          simpa using hj2
      · rintro ⟨pid, p2, hp2, hor⟩
        rcases List.mem_append.mp hp2 with hp3 | hp3
        · exact List.mem_append_left _ ((h j).mpr ⟨pid, p2, hp3, hor⟩)
        · simp only [List.mem_singleton, Prod.mk.injEq] at hp3
          refine List.mem_append_right _ ?_
          rcases hor with rfl | rfl
          · rw [hp3.2]
            simp
          · rw [hp3.2]
            simp

theorem build_kept_iff (rs : List Record) (mode : ℤ)
    (manual : Value → Option (ℕ × ℕ)) (i : ℕ) :
    i ∈ (buildAnalyzedData rs mode manual).kept ↔
      ∃ pid p, (pid, p) ∈ (buildAnalyzedData rs mode manual).used ∧
        (i = p.1 ∨ i = p.2) :=
  buildFold_kept_used rs (analysisFields mode) manual (subjects rs)
    ⟨[], [], []⟩
    (fun j =>
      ⟨fun h => absurd h (List.not_mem_nil j),
        fun hx => by
          obtain ⟨pid, p, hp, _⟩ := hx
          exact absurd hp (List.not_mem_nil _)⟩) i

/-- C4 witness: an override (0, 7) for subject S1 where index 7 does not
exist, at a concrete record set. -/
theorem c4_witness :
    (c4manualBad (vStr "S1") = some (0, 7) ∧ vStr "S1" ∈ subjects e3rows) ∧
    (((((validGroup e3rows (analysisFields 2) (vStr "S1")).map
          Prod.fst).contains (0, 7).1 ∧
        ((validGroup e3rows (analysisFields 2) (vStr "S1")).map
          Prod.fst).contains (0, 7).2) →
        (buildAnalyzedData e3rows 2 c4manualBad).used.lookup (vStr "S1") =
          some (0, 7)) ∧
      ((¬ (((validGroup e3rows (analysisFields 2) (vStr "S1")).map
            Prod.fst).contains (0, 7).1 ∧
          ((validGroup e3rows (analysisFields 2) (vStr "S1")).map
            Prod.fst).contains (0, 7).2)) →
        (buildAnalyzedData e3rows 2 c4manualBad).used.lookup (vStr "S1") =
          closestPairIndices (validGroup e3rows (analysisFields 2) (vStr "S1"))
            (analysisFields 2)) ∧
      (∀ (manual2 : Value → Option (ℕ × ℕ)) (q : Value),
        manual2 q = c4manualBad q →
          (buildAnalyzedData e3rows 2 manual2).used.lookup q =
            (buildAnalyzedData e3rows 2 c4manualBad).used.lookup q)) :=
  ⟨⟨by decide, by decide⟩,
    c4_manual_override e3rows 2 c4manualBad (vStr "S1") (0, 7) (by decide)
      (by decide)⟩

/-- C6: after pair selection the kept label set is exactly the union of the
chosen pairs' indices — a label is kept exactly when some subject's chosen
pair contains it — and in the assembled output every row is marked
`Analyed = "Yes"` exactly when its position is kept. -/
theorem c6_kept_union (rs : List Record) (mode : ℤ)
    (manual : Value → Option (ℕ × ℕ)) :
    (∀ i : ℕ, i ∈ (buildAnalyzedData (prep rs) mode manual).kept ↔
      ∃ pid p, (pid, p) ∈ (buildAnalyzedData (prep rs) mode manual).used ∧
        (i = p.1 ∨ i = p.2)) ∧
    (∀ i : ℕ, i < (saveCore rs mode manual).allRows.length →
      (((saveCore rs mode manual).allRows.getD i defaultRecord).analyed =
          vStr "Yes" ↔
        i ∈ (buildAnalyzedData (prep rs) mode manual).kept)) := by
  constructor
  · intro i
    exact build_kept_iff (prep rs) mode manual i
  · intro i hi
    unfold saveCore at hi ⊢
    set az := buildAnalyzedData (prep rs) mode manual with haz
    set f := fun p : ℕ × Record =>
      { p.2 with
        analyed := vStr (if az.kept.contains p.1 then "Yes" else "No") }
      with hf
    have hlen : ((prep rs).enum.map f).length = (prep rs).length := by
      rw [List.length_map, List.enum_length]
    have hi2 : i < (prep rs).length := by
      rw [← hlen]
      exact hi
    have hget : ((prep rs).enum.map f).getD i defaultRecord =
        f (i, (prep rs).getD i defaultRecord) := by
      have henum : ((prep rs).enum)[i]? = some (i, (prep rs)[i]) := by
        rw [List.enum_eq_zip_range]
        rw [List.getElem?_zip_eq_some]
        refine ⟨?_, ?_⟩
        · simp [List.getElem?_range hi2]
        · exact List.getElem?_eq_getElem hi2
      have hr : (prep rs).getD i defaultRecord = (prep rs)[i] :=
        List.getD_eq_getElem _ _ hi2
      rw [hr, List.getD_eq_getElem?_getD, List.getElem?_map, henum]
      rfl
    rw [hget]
    by_cases hk : az.kept.contains i
    · have hk2 : i ∈ az.kept := by
        rw [← List.elem_iff]
        exact hk
      simp only [hf, hk, if_true]
      simpa using hk2
    · have hk2 : i ∉ az.kept := by
        rw [← List.elem_iff]
        exact fun h => hk h
      simp only [hf, hk, if_false]
      constructor
      · intro h
        exact absurd (Value.vStr.inj h) (by decide : ¬ ("No" = "Yes"))
      · intro h
        exact absurd h hk2

/-- C6 witness: a one-row input, checked at position 0. -/
theorem c6_witness :
    (0 < (saveCore c6recs ANALYSIS_MODE (fun _ => none)).allRows.length) ∧
    (((saveCore c6recs ANALYSIS_MODE (fun _ => none)).allRows.getD 0
        defaultRecord).analyed = vStr "Yes" ↔
      0 ∈ (buildAnalyzedData (prep c6recs) ANALYSIS_MODE
        (fun _ => none)).kept) :=
  ⟨by decide,
    (c6_kept_union c6recs ANALYSIS_MODE (fun _ => none)).2 0 (by decide)⟩

/-! ### Membership facts about groups and chosen pairs -/

theorem validGroup_mem {rs : List Record} {fields : List String} {pid : Value}
    {e : ℕ × Record} (h : e ∈ validGroup rs fields pid) :
    rs[e.1]? = some e.2 ∧ e.2.patientId = pid ∧ eligible fields e.2 = true := by
  unfold validGroup groupFor at h
  have h1 := List.mem_filter.mp h
  have h2 := List.mem_filter.mp h1.1
  refine ⟨?_, ?_, h1.2⟩
  · exact List.mem_enum_iff_getElem?.mp h2.1
  · exact beq_iff_eq.mp h2.2

theorem getRecord_of_validGroup_fst {rs : List Record} {fields : List String}
    {pid : Value} {i : ℕ}
    (h : i ∈ (validGroup rs fields pid).map Prod.fst) :
    (getRecord rs i).patientId = pid ∧
      eligible fields (getRecord rs i) = true := by
  obtain ⟨e, he, rfl⟩ := List.mem_map.mp h
  obtain ⟨hget, hpid, helig⟩ := validGroup_mem he
  have : getRecord rs e.1 = e.2 := by
    unfold getRecord
    rw [hget]
    rfl
  rw [this]
  exact ⟨hpid, helig⟩

theorem selStep_closest_cases (so : Bool) (fields : List String) (s : SelState)
    (q : (ℕ × Record) × (ℕ × Record)) :
    (selStep so fields s q).closest = s.closest ∨
      (selStep so fields s q).closest = some (q.1.1, q.2.1) := by
  unfold selStep
  dsimp only
  split_ifs <;> first | exact Or.inl rfl | exact Or.inr rfl

theorem foldl_closest_cases (so : Bool) (fields : List String)
    (l : List ((ℕ × Record) × (ℕ × Record))) :
    ∀ s, ((l.foldl (selStep so fields) s).closest = s.closest) ∨
      ∃ pr ∈ l, (l.foldl (selStep so fields) s).closest =
        some (pr.1.1, pr.2.1) := by
  induction l with
  | nil => intro s; exact Or.inl rfl
  | cons q rest ih =>
    intro s
    rw [List.foldl_cons]
    rcases ih (selStep so fields s q) with h | ⟨pr, hpr, h⟩
    · rcases selStep_closest_cases so fields s q with h2 | h2
      · exact Or.inl (h.trans h2)
      · exact Or.inr ⟨q, List.mem_cons_self _ _, h.trans h2⟩
    · exact Or.inr ⟨pr, List.mem_cons_of_mem _ hpr, h⟩

theorem closestPair_mem {g : List (ℕ × Record)} {fields : List String}
    {i j : ℕ} (h : closestPairIndices g fields = some (i, j)) :
    i ∈ g.map Prod.fst ∧ j ∈ g.map Prod.fst := by
  unfold closestPairIndices at h
  split at h
  · cases h
  · rcases foldl_closest_cases (fields == MODE_B_FIELDS) fields (pairList g)
        ⟨none, none, none⟩ with h2 | ⟨pr, hpr, h2⟩
    · rw [h2] at h
      cases h
    · rw [h2] at h
      have h3 := Prod.ext_iff.mp (Option.some.inj h)
      have h4 : pr.1.1 = i := h3.1
      have h5 : pr.2.1 = j := h3.2
      obtain ⟨hi, hj⟩ := pairList_mem_parts g pr hpr
      constructor
      · exact h4 ▸ List.mem_map_of_mem Prod.fst hi
      · exact h5 ▸ List.mem_map_of_mem Prod.fst hj

theorem closestPair_two_le {g : List (ℕ × Record)} {fields : List String}
    {p : ℕ × ℕ} (h : closestPairIndices g fields = some p) : 2 ≤ g.length := by
  unfold closestPairIndices at h
  split at h
  · cases h
  · omega

theorem selectPair_mem {rs : List Record} {fields : List String}
    {manual : Value → Option (ℕ × ℕ)} {pid : Value} {p : ℕ × ℕ}
    (h : selectPair rs fields manual pid = some p) :
    p.1 ∈ (validGroup rs fields pid).map Prod.fst ∧
      p.2 ∈ (validGroup rs fields pid).map Prod.fst := by
  unfold selectPair at h
  rcases hm : manual pid with _ | mp
  · rw [hm] at h
    obtain ⟨i, j⟩ := p
    exact closestPair_mem h
  · rw [hm] at h
    dsimp only at h
    split at h
    · have hc := Option.some.inj h
      rename_i hcond
      rcases Bool.and_eq_true _ _ |>.mp hcond with ⟨h1, h2⟩
      subst hc
      constructor
      · rw [← List.elem_iff]
        exact h1
      · rw [← List.elem_iff]
        exact h2
    · obtain ⟨i, j⟩ := p
      exact closestPair_mem h

/-! ### Claim C2: single-record subjects -/

theorem length_filter_enumFrom (l : List Record) (P : Record → Bool) :
    ∀ n, ((l.enumFrom n).filter (fun p => P p.2)).length =
      (l.filter P).length := by
  induction l with
  | nil => intro n; rfl
  | cons a t ih =>
    intro n
    show (((n, a) :: t.enumFrom (n + 1)).filter (fun p => P p.2)).length =
      ((a :: t).filter P).length
    rw [List.filter_cons, List.filter_cons]
    by_cases hP : P a
    · simp only [hP, if_true, List.length_cons]
      rw [ih (n + 1)]
    · simp only [hP, Bool.false_eq_true, if_false]
      exact ih (n + 1)

theorem filter_sublist_of_imp (l : List Record) (P R : Record → Bool)
    (h : ∀ a ∈ l, P a = true → R a = true) :
    (l.filter P).Sublist (l.filter R) := by
  induction l with
  | nil => exact List.Sublist.refl _
  | cons a t ih =>
    have iht := ih (fun x hx => h x (List.mem_cons_of_mem _ hx))
    rw [List.filter_cons, List.filter_cons]
    by_cases hP : P a
    · rw [if_pos hP, if_pos (h a (List.mem_cons_self _ _) hP)]
      exact iht.cons₂ a
    · rw [if_neg hP]
      by_cases hR : R a
      · rw [if_pos hR]
        exact iht.cons a
      · rw [if_neg hR]
        exact iht

theorem cell_perSys (r : Record) :
    r.cell "Peripheral Systolic Pressure (mmHg)" = r.perSys := rfl

theorem perSys_mem_analysisFields (mode : ℤ) :
    "Peripheral Systolic Pressure (mmHg)" ∈ analysisFields mode := by
  unfold analysisFields
  split_ifs <;> decide

theorem special_perSys_null {r : Record} (hb : applySpecialBlank r = r)
    (hs : r.isSpecial = true) : r.perSys = vNull := by
  unfold applySpecialBlank at hb
  rw [if_pos hs] at hb
  rw [← hb]
  rfl

theorem eligible_not_special {mode : ℤ} {r : Record}
    (hb : applySpecialBlank r = r)
    (he : eligible (analysisFields mode) r = true) : (!r.isSpecial) = true := by
  rw [Bool.not_eq_true']
  by_contra hs2
  have hs : r.isSpecial = true := by
    rcases Bool.eq_false_or_eq_true r.isSpecial with h | h
    · exact h
    · exact absurd h hs2
  have hnull := special_perSys_null hb hs
  unfold eligible at he
  rw [List.all_eq_true] at he
  have h2 := he _ (perSys_mem_analysisFields mode)
  rw [cell_perSys, hnull] at h2
  simp [toNumeric] at h2

theorem validGroup_length_le_regular (rs : List Record) (mode : ℤ) (pid : Value)
    (hblank : ∀ r ∈ rs, applySpecialBlank r = r) :
    (validGroup rs (analysisFields mode) pid).length ≤
      (((rs.filter (fun r => !r.isSpecial)).filter
        (fun r => r.patientId == pid))).length := by
  unfold validGroup groupFor
  rw [List.filter_filter]
  have h1 : ((rs.enumFrom 0).filter
      (fun p => eligible (analysisFields mode) p.2 &&
        p.2.patientId == pid)).length =
      (rs.filter (fun r => eligible (analysisFields mode) r &&
        r.patientId == pid)).length :=
    length_filter_enumFrom rs
      (fun r => eligible (analysisFields mode) r && r.patientId == pid) 0
  show ((rs.enumFrom 0).filter
      (fun p => eligible (analysisFields mode) p.2 &&
        p.2.patientId == pid)).length ≤ _
  rw [h1, List.filter_filter]
  refine List.Sublist.length_le (filter_sublist_of_imp rs _ _ ?_)
  intro a ha hP
  rcases Bool.and_eq_true _ _ |>.mp hP with ⟨he, hp⟩
  rw [Bool.and_eq_true]
  exact ⟨hp, eligible_not_special (hblank a ha) he⟩

theorem build_used_entry {rs : List Record} {mode : ℤ}
    {manual : Value → Option (ℕ × ℕ)} {q : Value} {p : ℕ × ℕ}
    (h : (q, p) ∈ (buildAnalyzedData rs mode manual).used) :
    q ∈ subjects rs ∧
      selectPair rs (analysisFields mode) manual q = some p := by
  rcases buildFold_used_entry rs (analysisFields mode) manual (subjects rs)
      ⟨[], [], []⟩ q p h with h2 | h2
  · cases h2
  · exact h2

theorem kept_pid_ne (rs : List Record) (mode : ℤ)
    (manual : Value → Option (ℕ × ℕ)) (pid : Value)
    (hone : (((prep rs).filter (fun r => !r.isSpecial)).filter
      (fun r => r.patientId == pid)).length = 1)
    (hman : manual pid = none) :
    ∀ i ∈ (buildAnalyzedData (prep rs) mode manual).kept,
      (getRecord (prep rs) i).patientId ≠ pid := by
  intro i hi heq
  obtain ⟨q, p, hused, hor⟩ :=
    (build_kept_iff (prep rs) mode manual i).mp hi
  obtain ⟨hqsub, hsel⟩ := build_used_entry hused
  obtain ⟨h1, h2⟩ := selectPair_mem hsel
  have hqpid : (getRecord (prep rs) i).patientId = q := by
    rcases hor with rfl | rfl
    · exact (getRecord_of_validGroup_fst h1).1
    · exact (getRecord_of_validGroup_fst h2).1
  rw [hqpid] at heq
  subst heq
  unfold selectPair at hsel
  rw [hman] at hsel
  have h2le := closestPair_two_le hsel
  have hle := validGroup_length_le_regular (prep rs) mode q
    (prep_blank_fixed rs)
  rw [hone] at hle
  omega

theorem lookup_map_cols (cols : List String) (f : String → Value) (c : String)
    (h : c ∈ cols) :
    (cols.map (fun k => (k, f k))).lookup c = some (f c) := by
  induction cols with
  | nil => cases h
  | cons k t ih =>
    by_cases hk : (c == k) = true
    · simp only [List.map_cons, List.lookup, hk]
      rw [beq_iff_eq.mp hk]
    · have hmem : c ∈ t := by
        rcases List.mem_cons.mp h with rfl | h2
        · exact absurd (by simp) hk
        · exact h2
      simp only [List.map_cons, List.lookup, hk]
      exact ih hmem

theorem addQC_lookup_qc (row : List (String × Value)) (v : Value)
    (hk : ∀ e ∈ row, e.1 ≠ "Quality Check") :
    (addQCEntry row v).lookup "Quality Check" = some v := by
  induction row with
  | nil => rfl
  | cons e rest ih =>
    unfold addQCEntry
    have hne : ("Quality Check" == e.1) = false :=
      beq_eq_false_iff_ne.mpr
        (fun h => (hk e (List.mem_cons_self _ _)) h.symm)
    by_cases hpid : (e.1 == "Patient ID") = true
    · rw [if_pos hpid]
      simp [List.lookup, hne]
    · rw [if_neg hpid]
      simp only [List.lookup, hne]
      exact ih (fun x hx => hk x (List.mem_cons_of_mem _ hx))

theorem addQC_lookup_other (row : List (String × Value)) (v : Value)
    (c : String) (hc : c ≠ "Quality Check") :
    (addQCEntry row v).lookup c = row.lookup c := by
  induction row with
  | nil =>
    have hcq : (c == "Quality Check") = false := by simpa using hc
    simp [addQCEntry, List.lookup, hcq]
  | cons e rest ih =>
    unfold addQCEntry
    by_cases hpid : (e.1 == "Patient ID") = true
    · rw [if_pos hpid]
      by_cases hce : (c == e.1) = true
      · simp [List.lookup, hce]
      · have hcq : (c == "Quality Check") = false := by simpa using hc
        simp [List.lookup, hce, hcq]
    · rw [if_neg hpid]
      by_cases hce : (c == e.1) = true
      · simp [List.lookup, hce]
      · simp only [List.lookup, hce]
        exact ih

/-- C2 amended: a subject with exactly one regular (non-special) record and no
manual override never appears in the Kept table, and the Averaged table has a
placeholder row for it whose measurement cells all hold the sentinel `"-"`
(not null) and whose `Quality Check` cell is the diagnostic string of that
subject, whose failure list contains the single-record warning. -/
theorem c2_amended_single_record (rs : List Record) (mode : ℤ)
    (manual : Value → Option (ℕ × ℕ)) (pid : Value)
    (hpid : pid ≠ vNull)
    (hone : (((prep rs).filter (fun r => !r.isSpecial)).filter
      (fun r => r.patientId == pid)).length = 1)
    (hman : manual pid = none) :
    (∀ r ∈ (saveCore rs mode manual).keptRows, r.patientId ≠ pid) ∧
    (∃ row ∈ (saveCore rs mode manual).avgRows,
      row.lookup "Patient ID" = some pid ∧
      (∀ c ∈ AVG_COLS, c ≠ "Patient ID" →
        row.lookup c = some (vStr "-")) ∧
      row.lookup "Quality Check" = some (vStr (qcString (qcFailures (prep rs)
        (buildAnalyzedData (prep rs) mode manual).used pid))) ∧
      MSG_SINGLE ∈ qcFailures (prep rs)
        (buildAnalyzedData (prep rs) mode manual).used pid) := by
  have hmem_single : pid ∈ singleFilePids (prep rs) := by
    unfold singleFilePids
    rw [List.mem_filter]
    constructor
    · unfold regularPids
      rw [List.mem_dedup, List.mem_filter]
      constructor
      · have hpos : 0 < (((prep rs).filter (fun r => !r.isSpecial)).filter
            (fun r => r.patientId == pid)).length := by omega
        obtain ⟨r, hr⟩ := List.exists_mem_of_length_pos hpos
        have h1 := List.mem_filter.mp hr
        have h2 : r.patientId = pid := beq_iff_eq.mp h1.2
        exact h2 ▸ List.mem_map_of_mem Record.patientId h1.1
      · cases hv : pid with
        | vNull => exact absurd hv hpid
        | vNum q => simp [Value.isNull]
        | vStr s => simp [Value.isNull]
    · simpa using hone
  constructor
  · intro r hr
    unfold saveCore at hr
    have h1 := List.mem_filter.mp hr
    obtain ⟨⟨i, r0⟩, hienum, hfeq⟩ := List.mem_map.mp h1.1
    have hana := h1.2
    rw [← hfeq] at hana
    simp only at hana
    by_cases hk : (buildAnalyzedData (prep rs) mode manual).kept.contains i
    · have hik : i ∈ (buildAnalyzedData (prep rs) mode manual).kept := by
        rw [← List.elem_iff]
        exact hk
      have hget : (prep rs)[i]? = some r0 :=
        List.mem_enum_iff_getElem?.mp hienum
      have hgr : getRecord (prep rs) i = r0 := by
        unfold getRecord
        rw [hget]
        rfl
      have := kept_pid_ne rs mode manual pid hone hman i hik
      rw [hgr] at this
      rw [← hfeq]
      simpa using this
    · exfalso
      have hkf : (buildAnalyzedData (prep rs) mode manual).kept.contains i =
          false := by
        rcases Bool.eq_false_or_eq_true
            ((buildAnalyzedData (prep rs) mode manual).kept.contains i) with
          h | h
        · exact absurd h hk
        · exact h
      rw [hkf] at hana
      simp at hana
  · refine ⟨addQCEntry (AVG_COLS.map (fun c =>
      (c, if c = "Patient ID" then pid else vStr "-")))
        (vStr (qcValue (prep rs)
          (buildAnalyzedData (prep rs) mode manual).used pid)), ?_, ?_, ?_, ?_, ?_⟩
    · unfold saveCore
      refine List.mem_map.mpr ⟨AVG_COLS.map (fun c =>
        (c, if c = "Patient ID" then pid else vStr "-")), ?_, ?_⟩
      · refine List.mem_append_right _ ?_
        exact List.mem_map_of_mem _ hmem_single
      · have hlk : (List.map (fun c =>
            (c, if c = "Patient ID" then pid else vStr "-")) AVG_COLS).lookup
              "Patient ID" = some pid := by
          have := lookup_map_cols AVG_COLS
            (fun c => if c = "Patient ID" then pid else vStr "-")
            "Patient ID" (by decide)
          simpa using this
        rw [hlk]
        rfl
    · rw [addQC_lookup_other _ _ _ (by decide)]
      have := lookup_map_cols AVG_COLS
        (fun c => if c = "Patient ID" then pid else vStr "-")
        "Patient ID" (by decide)
      simpa using this
    · intro c hc hcpid
      rw [addQC_lookup_other _ _ _ ?_]
      · have h2 := lookup_map_cols AVG_COLS
          (fun c => if c = "Patient ID" then pid else vStr "-") c hc
        rw [h2]
        show some (if c = "Patient ID" then pid else vStr "-") = some (vStr "-")
        rw [if_neg hcpid]
      · intro heq
        subst heq
        revert hc
        decide
    · rw [addQC_lookup_qc]
      · have hmem2 : pid ∈ regularPids (prep rs) := by
          unfold singleFilePids at hmem_single
          exact (List.mem_filter.mp hmem_single).1
        have hcont : (regularPids (prep rs)).contains pid = true := by
          show (regularPids (prep rs)).elem pid = true
          exact (List.elem_iff).mpr hmem2
        unfold qcValue
        rw [hcont]
        simp
      · intro e he
        obtain ⟨c, hc, rfl⟩ := List.mem_map.mp he
        intro hceq
        simp only at hceq
        subst hceq
        revert hc
        decide
    · unfold qcFailures
      have hsize : (((prep rs).filter (fun r => !r.isSpecial)).filter
          (fun r => r.patientId == pid)).length = 1 := hone
      refine List.mem_append_left _ (List.mem_append_left _ ?_)
      rw [if_pos hsize]
      exact List.mem_singleton.mpr rfl

/-- C2 counterexample: subject S1 has two regular records of which exactly one
is eligible in the active mode (the other is missing the systolic value).  The
claim as stated promises a placeholder row in the Averaged table, but the
Averaged table is empty: the single-record check counts regular records, not
eligible ones. -/
theorem c2_counterexample :
    (validGroup (prep [c2recA, c2recB]) (analysisFields ANALYSIS_MODE)
      (vStr "S1")).length = 1 ∧
    (saveCore [c2recA, c2recB] ANALYSIS_MODE (fun _ => none)).avgRows = [] :=
  ⟨by decide, by decide⟩

/-- C2 witness: a one-record subject S2, which indeed gets a `"-"` placeholder
row carrying the single-record warning and no Kept row. -/
theorem c2_witness :
    ((vStr "S2" : Value) ≠ vNull ∧
      (((prep [c2recC]).filter (fun r => !r.isSpecial)).filter
        (fun r => r.patientId == vStr "S2")).length = 1) ∧
    ((∀ r ∈ (saveCore [c2recC] ANALYSIS_MODE
        (fun _ => none)).keptRows, r.patientId ≠ vStr "S2") ∧
      (∃ row ∈ (saveCore [c2recC] ANALYSIS_MODE (fun _ => none)).avgRows,
        row.lookup "Patient ID" = some (vStr "S2") ∧
        (∀ c ∈ AVG_COLS, c ≠ "Patient ID" →
          row.lookup c = some (vStr "-")) ∧
        row.lookup "Quality Check" =
          some (vStr (qcString (qcFailures (prep [c2recC])
            (buildAnalyzedData (prep [c2recC]) ANALYSIS_MODE
              (fun _ => none)).used (vStr "S2")))) ∧
        MSG_SINGLE ∈ qcFailures (prep [c2recC])
          (buildAnalyzedData (prep [c2recC]) ANALYSIS_MODE
            (fun _ => none)).used (vStr "S2"))) :=
  ⟨⟨by decide, by decide⟩,
    c2_amended_single_record [c2recC] ANALYSIS_MODE (fun _ => none)
      (vStr "S2") (by decide) (by decide) rfl⟩

/-! ### Claim C7: the 5 mmHg disagreement threshold -/

theorem count_ite_single (c : Prop) [Decidable c] (m x : String) (h : m ≠ x) :
    ((if c then [x] else []).count m) = 0 := by
  split
  · simp [List.count_cons, Ne.symm h]
  · rfl

theorem count_diffMsg_zero (a b : Record) (f : String) :
    ∀ flds : List String, (∀ g ∈ flds, diffMsg g ≠ diffMsg f) →
      ((flds.filterMap (fun g =>
        match toNumeric (a.cell g), toNumeric (b.cell g) with
        | some x, some y => if |x - y| > 5 then some (diffMsg g) else none
        | _, _ => none)).count (diffMsg f)) = 0 := by
  intro flds
  induction flds with
  | nil => intro _; rfl
  | cons g t ih =>
    intro hne
    have iht := ih (fun x hx => hne x (List.mem_cons_of_mem _ hx))
    rw [List.filterMap_cons]
    rcases hF : (match toNumeric (a.cell g), toNumeric (b.cell g) with
      | some x, some y => if |x - y| > 5 then some (diffMsg g) else none
      | _, _ => none) with _ | s
    · simp only [hF]
      exact iht
    · have hs : s = diffMsg g := by
        rcases h1 : toNumeric (a.cell g) with _ | x <;>
          rcases h2 : toNumeric (b.cell g) with _ | y <;>
            rw [h1, h2] at hF
        · cases hF
        · cases hF
        · cases hF
        · by_cases h5 : |x - y| > 5
          · simp only [if_pos h5] at hF
            exact (Option.some.inj hF).symm
          · simp only [if_neg h5] at hF
            cases hF
      subst hs
      simp only [hF]
      rw [List.count_cons]
      have hb : (diffMsg g == diffMsg f) = false :=
        beq_eq_false_iff_ne.mpr (hne g (List.mem_cons_self _ _))
      rw [hb]
      simpa using iht

theorem count_diffMsg_some (a b : Record) (f : String) (x y : ℚ)
    (hx : toNumeric (a.cell f) = some x) (hy : toNumeric (b.cell f) = some y) :
    ∀ flds : List String, f ∈ flds → flds.Nodup →
      (∀ g ∈ flds, diffMsg g = diffMsg f → g = f) →
      ((flds.filterMap (fun g =>
        match toNumeric (a.cell g), toNumeric (b.cell g) with
        | some x2, some y2 => if |x2 - y2| > 5 then some (diffMsg g) else none
        | _, _ => none)).count (diffMsg f)) =
        (if |x - y| > 5 then 1 else 0) := by
  intro flds
  induction flds with
  | nil => intro h; cases h
  | cons g t ih =>
    intro hmem hnodup hinj
    rcases List.mem_cons.mp hmem with rfl | hmem2
    · have hnot : f ∉ t := (List.nodup_cons.mp hnodup).1
      have hzero := count_diffMsg_zero a b f t (fun w hw heq =>
        hnot ((hinj w (List.mem_cons_of_mem _ hw) heq) ▸ hw))
      rw [List.filterMap_cons]
      by_cases h5 : |x - y| > 5
      · simp only [hx, hy, if_pos h5]
        rw [List.count_cons, hzero]
        simp
      · simp only [hx, hy, if_neg h5]
        exact hzero
    · have hgf : g ≠ f := fun h =>
        (List.nodup_cons.mp hnodup).1 (h ▸ hmem2)
      have iht := ih hmem2 (List.nodup_cons.mp hnodup).2
        (fun w hw => hinj w (List.mem_cons_of_mem _ hw))
      rw [List.filterMap_cons]
      rcases hF : (match toNumeric (a.cell g), toNumeric (b.cell g) with
        | some x2, some y2 => if |x2 - y2| > 5 then some (diffMsg g) else none
        | _, _ => none) with _ | s
      · simp only [hF]
        exact iht
      · have hs : s = diffMsg g := by
          rcases h1 : toNumeric (a.cell g) with _ | x2 <;>
            rcases h2 : toNumeric (b.cell g) with _ | y2 <;>
              rw [h1, h2] at hF
          · cases hF
          · cases hF
          · cases hF
          · by_cases h5 : |x2 - y2| > 5
            · simp only [if_pos h5] at hF
              exact (Option.some.inj hF).symm
            · simp only [if_neg h5] at hF
              cases hF
        subst hs
        simp only [hF]
        rw [List.count_cons]
        have hb : (diffMsg g == diffMsg f) = false :=
          beq_eq_false_iff_ne.mpr (fun h =>
            hgf (hinj g (List.mem_cons_self _ _) h))
        rw [hb]
        simpa using iht

theorem count_diffMsg_none (a b : Record) (f : String)
    (hor : toNumeric (a.cell f) = none ∨ toNumeric (b.cell f) = none) :
    ∀ flds : List String, flds.Nodup →
      (∀ g ∈ flds, diffMsg g = diffMsg f → g = f) →
      ((flds.filterMap (fun g =>
        match toNumeric (a.cell g), toNumeric (b.cell g) with
        | some x2, some y2 => if |x2 - y2| > 5 then some (diffMsg g) else none
        | _, _ => none)).count (diffMsg f)) = 0 := by
  intro flds
  induction flds with
  | nil => intro _ _; rfl
  | cons g t ih =>
    intro hnodup hinj
    have iht := ih (List.nodup_cons.mp hnodup).2
      (fun w hw => hinj w (List.mem_cons_of_mem _ hw))
    rw [List.filterMap_cons]
    rcases hF : (match toNumeric (a.cell g), toNumeric (b.cell g) with
      | some x2, some y2 => if |x2 - y2| > 5 then some (diffMsg g) else none
      | _, _ => none) with _ | s
    · simp only [hF]
      exact iht
    · have hgf : g ≠ f := by
        intro h
        subst h
        rcases h1 : toNumeric (a.cell g) with _ | x2 <;>
          rcases h2 : toNumeric (b.cell g) with _ | y2 <;>
            rw [h1, h2] at hF
        · cases hF
        · cases hF
        · cases hF
        · rcases hor with h | h
          · rw [h1] at h
            cases h
          · rw [h2] at h
            cases h
      have hs : s = diffMsg g := by
        rcases h1 : toNumeric (a.cell g) with _ | x2 <;>
          rcases h2 : toNumeric (b.cell g) with _ | y2 <;>
            rw [h1, h2] at hF
        · cases hF
        · cases hF
        · cases hF
        · by_cases h5 : |x2 - y2| > 5
          · simp only [if_pos h5] at hF
            exact (Option.some.inj hF).symm
          · simp only [if_neg h5] at hF
            cases hF
      subst hs
      simp only [hF]
      rw [List.count_cons]
      have hb : (diffMsg g == diffMsg f) = false :=
        beq_eq_false_iff_ne.mpr (fun h =>
          hgf (hinj g (List.mem_cons_self _ _) h))
      rw [hb]
      simpa using iht

/-- C7: for a subject with a chosen pair and a cross-checked pressure field,
the quality failure list holds the excessive-disagreement message for that
field exactly once when both records have numeric values differing by strictly
more than 5, and not at all otherwise (missing values or difference at most
5, so a difference of exactly 5 does not flag and 6 does). -/
theorem c7_disagreement (rs : List Record) (used : List (Value × (ℕ × ℕ)))
    (pid : Value) (p : ℕ × ℕ) (f : String)
    (hpair : used.lookup pid = some p) (hf : f ∈ DIFF_FIELDS) :
    (∀ x y, toNumeric ((getRecord rs p.1).cell f) = some x →
      toNumeric ((getRecord rs p.2).cell f) = some y →
      (qcFailures rs used pid).count (diffMsg f) =
        (if |x - y| > 5 then 1 else 0)) ∧
    ((toNumeric ((getRecord rs p.1).cell f) = none ∨
      toNumeric ((getRecord rs p.2).cell f) = none) →
      (qcFailures rs used pid).count (diffMsg f) = 0) := by
  have hf4 : f = "Peripheral Systolic Pressure (mmHg)" ∨
      f = "Peripheral Diastolic Pressure (mmHg)" ∨
      f = "Aortic Systolic Pressure (mmHg)" ∨
      f = "Aortic Diastolic Pressure (mmHg)" := by
    simpa [DIFF_FIELDS] using hf
  have hd1 : diffMsg f ≠ MSG_SINGLE := by
    rcases hf4 with rfl | rfl | rfl | rfl <;> decide
  have hd2 : diffMsg f ≠ MSG_CLINICAL := by
    rcases hf4 with rfl | rfl | rfl | rfl <;> decide
  have hd3 : diffMsg f ≠ MSG_DATES := by
    rcases hf4 with rfl | rfl | rfl | rfl <;> decide
  have hnodup : DIFF_FIELDS.Nodup := by decide
  have hinj : ∀ g ∈ DIFF_FIELDS, ∀ h2 ∈ DIFF_FIELDS,
      diffMsg g = diffMsg h2 → g = h2 := by decide
  have hcount : (qcFailures rs used pid).count (diffMsg f) =
      ((DIFF_FIELDS.filterMap (fun g =>
        match toNumeric ((getRecord rs p.1).cell g),
            toNumeric ((getRecord rs p.2).cell g) with
        | some x, some y => if |x - y| > 5 then some (diffMsg g) else none
        | _, _ => none)).count (diffMsg f)) := by
    unfold qcFailures
    rw [hpair]
    rw [List.count_append, List.count_append, List.count_append]
    rw [count_ite_single _ _ _ hd1, count_ite_single _ _ _ hd2]
    have hfd : ((match parseDMY (getRecord rs p.1).scanDate,
        parseDMY (getRecord rs p.2).scanDate with
      | some da, some db => if da ≠ db then [MSG_DATES] else []
      | _, _ => ([] : List String)).count (diffMsg f)) = 0 := by
      rcases parseDMY (getRecord rs p.1).scanDate with _ | da <;>
        rcases parseDMY (getRecord rs p.2).scanDate with _ | db
      · rfl
      · rfl
      · rfl
      · exact count_ite_single _ _ _ hd3
    rw [hfd]
    omega
  rw [hcount]
  have hinjf : ∀ g ∈ DIFF_FIELDS, diffMsg g = diffMsg f → g = f :=
    fun g hg he => hinj g hg f hf he
  constructor
  · intro x y hx hy
    exact count_diffMsg_some (getRecord rs p.1) (getRecord rs p.2) f x y hx hy
      DIFF_FIELDS hf hnodup hinjf
  · intro hor
    exact count_diffMsg_none (getRecord rs p.1) (getRecord rs p.2) f hor
      DIFF_FIELDS hnodup hinjf

/-- C7 witness: a pair differing by 6 on peripheral systolic (message present
exactly once) and by 5 on peripheral diastolic (no message). -/
theorem c7_witness :
    (([(vStr "S1", ((0 : ℕ), (1 : ℕ)))].lookup (vStr "S1") = some (0, 1)) ∧
      "Peripheral Systolic Pressure (mmHg)" ∈ DIFF_FIELDS ∧
      "Peripheral Diastolic Pressure (mmHg)" ∈ DIFF_FIELDS) ∧
    (qcFailures c7rows [(vStr "S1", (0, 1))] (vStr "S1")).count
        (diffMsg "Peripheral Systolic Pressure (mmHg)") = 1 ∧
    (qcFailures c7rows [(vStr "S1", (0, 1))] (vStr "S1")).count
        (diffMsg "Peripheral Diastolic Pressure (mmHg)") = 0 := by
  refine ⟨⟨by decide, by decide, by decide⟩, ?_, ?_⟩
  · have h := (c7_disagreement c7rows [(vStr "S1", (0, 1))] (vStr "S1") (0, 1)
      "Peripheral Systolic Pressure (mmHg)" (by decide) (by decide)).1
      120 126 (by decide) (by decide)
    rw [h]
    norm_num
  · have h := (c7_disagreement c7rows [(vStr "S1", (0, 1))] (vStr "S1") (0, 1)
      "Peripheral Diastolic Pressure (mmHg)" (by decide) (by decide)).1
      80 85 (by decide) (by decide)
    rw [h]
    norm_num

/-! ### Claim C9: a repeated manual pair (i, i) -/

theorem lookupEntry_mem {α β : Type} [BEq α] [LawfulBEq α]
    (l : List (α × β)) (k : α) (v : β) (h : l.lookup k = some v) :
    (k, v) ∈ l := by
  induction l with
  | nil => cases h
  | cons e t ih =>
    obtain ⟨a, b⟩ := e
    cases hb : (k == a)
    · simp only [List.lookup, hb] at h
      exact List.mem_cons_of_mem _ (ih h)
    · simp only [List.lookup, hb] at h
      cases h
      exact (eq_of_beq hb) ▸ List.mem_cons_self _ _

theorem lookup_setMap (k : String) (v : Value) (c : String) (hne : c ≠ k) :
    ∀ t : List (String × Value),
      (t.map (fun e => if e.1 == k then (k, v) else e)).lookup c =
        t.lookup c := by
  intro t
  induction t with
  | nil => rfl
  | cons e t2 ih =>
    obtain ⟨a, b⟩ := e
    rw [List.map_cons]
    cases hb : (a == k)
    · simp only [hb, Bool.false_eq_true, if_false, List.lookup]
      cases hc : (c == a)
      · simp only [hc]
        exact ih
      · simp only [hc]
    · have hak : a = k := eq_of_beq hb
      have h1 : (c == k) = false := beq_eq_false_iff_ne.mpr hne
      have h2 : (c == a) = false := beq_eq_false_iff_ne.mpr (hak ▸ hne)
      simp only [hb, if_true, List.lookup, h1, h2]
      exact ih

theorem lookup_setEntry_ne (row : List (String × Value)) (k : String)
    (v : Value) (c : String) (hne : c ≠ k) :
    (setEntry row k v).lookup c = row.lookup c := by
  unfold setEntry
  split
  · exact lookup_setMap k v c hne row
  · rcases hrow : row.lookup c with _ | b
    · rw [lookup_append_none hrow]
      have h1 : (c == k) = false := beq_eq_false_iff_ne.mpr hne
      simp [List.lookup, h1]
    · exact lookup_append_some hrow

theorem avgCellSpec_self (v : Value) (q : ℚ) (h : toNumeric v = some q) :
    avgCellSpec v v = vNum q := by
  unfold avgCellSpec
  simp only [h]
  congr 1
  ring

theorem buildStep_rows_mono (rs : List Record) (fields : List String)
    (manual : Value → Option (ℕ × ℕ)) (acc : Analyzed) (s : Value)
    (r : List (String × Value)) (h : r ∈ acc.rows) :
    r ∈ (buildStep rs fields manual acc s).rows := by
  unfold buildStep
  rcases hsel : selectPair rs fields manual s with _ | p
  · exact h
  · exact List.mem_append_left _ h

theorem buildFold_rows_mono (rs : List Record) (fields : List String)
    (manual : Value → Option (ℕ × ℕ)) (subs : List Value) :
    ∀ acc (r : List (String × Value)), r ∈ acc.rows →
      r ∈ (subs.foldl (buildStep rs fields manual) acc).rows := by
  induction subs with
  | nil => intro acc r h; exact h
  | cons s rest ih =>
    intro acc r h
    rw [List.foldl_cons]
    exact ih _ r (buildStep_rows_mono rs fields manual acc s r h)

theorem buildFold_rows_mem (rs : List Record) (fields : List String)
    (manual : Value → Option (ℕ × ℕ)) (subs : List Value) :
    ∀ acc (pid : Value) (p : ℕ × ℕ), pid ∈ subs →
      selectPair rs fields manual pid = some p →
      setEntry (averagePairRows COLUMNSM (getRecord rs p.1).cell
          (getRecord rs p.2).cell AVERAGED_EXCLUDED) "Patient ID" pid ∈
        (subs.foldl (buildStep rs fields manual) acc).rows := by
  induction subs with
  | nil => intro _ _ _ h; cases h
  | cons s rest ih =>
    intro acc pid p hmem hsel
    rw [List.foldl_cons]
    rcases List.mem_cons.mp hmem with rfl | h2
    · refine buildFold_rows_mono rs fields manual rest _ _ ?_
      unfold buildStep
      simp only [hsel]
      exact List.mem_append_right _ (List.mem_cons_self _ _)
    · exact ih _ pid p h2 hsel

/-- C9: a manual override repeating one eligible index, the pair (i, i), is
accepted verbatim rather than downgraded to automatic selection: the subject's
recorded pair is (i, i), the subject contributes only the label i to the kept
set, and the subject's averaged row holds, in every non-excluded numeric
column, record i's own value (the mean of a value with itself). -/
theorem c9_repeated_override (rs : List Record) (mode : ℤ)
    (manual : Value → Option (ℕ × ℕ)) (pid : Value) (i : ℕ)
    (hm : manual pid = some (i, i))
    (hvg : ((validGroup rs (analysisFields mode) pid).map
      Prod.fst).contains i = true)
    (hs : pid ∈ subjects rs) :
    (buildAnalyzedData rs mode manual).used.lookup pid = some (i, i) ∧
    (∀ j : ℕ, j ∈ (buildAnalyzedData rs mode manual).kept ↔
      (j = i ∨ ∃ pid2 p2, pid2 ≠ pid ∧
        (pid2, p2) ∈ (buildAnalyzedData rs mode manual).used ∧
        (j = p2.1 ∨ j = p2.2))) ∧
    (∃ row ∈ (buildAnalyzedData rs mode manual).rows,
      ∀ (col : String) (q : ℚ), col ∈ COLUMNSM →
        AVERAGED_EXCLUDED.contains col = false → col ≠ "Patient ID" →
        toNumeric ((getRecord rs i).cell col) = some q →
        row.lookup col = some (vNum q)) := by
  have hsel : selectPair rs (analysisFields mode) manual pid = some (i, i) := by
    unfold selectPair
    rw [hm]
    dsimp only
    rw [if_pos (by rw [hvg]; rfl)]
  have hlook : (buildAnalyzedData rs mode manual).used.lookup pid =
      some (i, i) := by
    rw [build_used_lookup rs mode manual pid hs]
    exact hsel
  refine ⟨hlook, ?_, ?_⟩
  · intro j
    constructor
    · intro hj
      obtain ⟨pid2, p2, hp2, hor⟩ := (build_kept_iff rs mode manual j).mp hj
      by_cases heq : pid2 = pid
      · subst heq
        rcases buildFold_used_entry rs (analysisFields mode) manual
            (subjects rs) ⟨[], [], []⟩ pid2 p2 hp2 with h0 | ⟨_, hp⟩
        · cases h0
        · rw [hsel] at hp
          cases hp
          rcases hor with rfl | rfl
          · exact Or.inl rfl
          · exact Or.inl rfl
      · exact Or.inr ⟨pid2, p2, heq, hp2, hor⟩
    · intro hj
      rcases hj with rfl | ⟨pid2, p2, _, hp2, hor⟩
      · exact (build_kept_iff rs mode manual j).mpr
          ⟨pid, (j, j), lookupEntry_mem _ _ _ hlook, Or.inl rfl⟩
      · exact (build_kept_iff rs mode manual j).mpr ⟨pid2, p2, hp2, hor⟩
  · refine ⟨setEntry (averagePairRows COLUMNSM (getRecord rs i).cell
        (getRecord rs i).cell AVERAGED_EXCLUDED) "Patient ID" pid, ?_, ?_⟩
    · exact buildFold_rows_mem rs (analysisFields mode) manual (subjects rs)
        ⟨[], [], []⟩ pid (i, i) hs hsel
    · intro col q hcol hexcl hpid hq
      rw [lookup_setEntry_ne _ _ _ _ hpid]
      rw [averagePairRows_lookup COLUMNSM _ _ AVERAGED_EXCLUDED col hcol
        hexcl hpid]
      rw [avgCellSpec_self _ q hq]

/-- C9 witness: the override (2, 2) on a three-record subject is taken as is;
only label 2 is kept and the averaged systolic value is record 2's own 200. -/
theorem c9_witness :
    (c9manual (vStr "S1") = some (2, 2) ∧
      ((validGroup e3rows (analysisFields 2) (vStr "S1")).map
        Prod.fst).contains 2 = true ∧
      vStr "S1" ∈ subjects e3rows) ∧
    ((buildAnalyzedData e3rows 2 c9manual).used.lookup (vStr "S1") =
        some (2, 2) ∧
      (∀ j : ℕ, j ∈ (buildAnalyzedData e3rows 2 c9manual).kept ↔
        (j = 2 ∨ ∃ pid2 p2, pid2 ≠ vStr "S1" ∧
          (pid2, p2) ∈ (buildAnalyzedData e3rows 2 c9manual).used ∧
          (j = p2.1 ∨ j = p2.2))) ∧
      (∃ row ∈ (buildAnalyzedData e3rows 2 c9manual).rows,
        ∀ (col : String) (q : ℚ), col ∈ COLUMNSM →
          AVERAGED_EXCLUDED.contains col = false → col ≠ "Patient ID" →
          toNumeric ((getRecord e3rows 2).cell col) = some q →
          row.lookup col = some (vNum q))) :=
  ⟨⟨by decide, by decide, by decide⟩,
    c9_repeated_override e3rows 2 c9manual (vStr "S1") 2 (by decide)
      (by decide) (by decide)⟩


end PWA
